import Mathlib

/-!
A verification development for the `jskos` data model and its processing
engine (`src/jskos/api.py`).

The raw entity hierarchy (`Resource`, `Annotation`, qualified values,
`Item`, `Concept`, `Mapping`, `ConceptScheme`, `ConceptBundle`,
`Occurrence`, `KOS`) and every `process` method are translated from the
source.  Python exceptions are modelled by `Except ProcessError`; a raised
exception is an `Except.error`, so no partially processed tree can be
returned.

External collaborators are modelled from the specification:
* the reference resolver (`curies.Converter.parse_uri`, strict mode) is a
  longest-prefix match over a prefix table, failing with
  `UnresolvedURIError` when no registered namespace root is a prefix of the
  URI (spec section 4.1); `Reference` is a (namespace-prefix, local
  identifier) pair and `ReferenceTuple.to_pydantic` is the identity here;
* `curies.mixins.process_many` maps `None` to `None` and otherwise applies
  `.process` element-wise; calling `.process` on a `None` element fails
  (`attributeError` below), as it does on a Python `None`;
* assigning `None` to the required list field `ProcessedKOS.concepts`
  fails model validation (`validationError` below); the field default
  applies only when the argument is omitted, and `KOS.process` always
  passes it.

Python `dict`s are modelled as insertion-ordered association lists;
re-assigning an existing key keeps its original position and replaces the
value, which is what `dict` comprehensions do.
-/

namespace Jskos

/-- A URI string.  In the source these fields are `pydantic.AnyUrl` values,
validated upstream of the processing engine. -/
abbrev URI := String

/-- A two-letter language code (`LanguageCode` in the source). -/
abbrev LanguageCode := String

/-- A dictionary from language codes to strings (`LanguageMap`), modelled
as an insertion-ordered association list. -/
abbrev LanguageMap := List (LanguageCode × String)

/-- A dictionary from language codes to lists of strings
(`LanguageMapOfList`). -/
abbrev LanguageMapOfList := List (LanguageCode × List String)

/-- A calendar date (`datetime.date`).  Dates are only carried through
processing, never computed with, so an opaque scalar suffices. -/
abbrev JDate := String

/-- An opaque stand-in for `typing.Any` (the `depiction` field). -/
abbrev AnyVal := String

/-- The `rank` enumeration, from `type Rank = Literal["preferred",
"normal", "deprecated"]`. -/
inductive Rank where
  | preferred
  | normal
  | deprecated
deriving DecidableEq

/-- The `@context` field value: `AnyUrl | list[AnyUrl] | None`, with the
`None` case handled by `Option` at the use sites. -/
inductive ContextVal where
  | one (url : URI)
  | many (urls : List URI)
deriving DecidableEq

/-- Model of `QualifiedLiteralInner`: a string with a language. -/
structure QualifiedLiteralInner where
  string : String
  language : Option LanguageCode
deriving DecidableEq

/-- Modelled from the spec: a compact reference, a (namespace-prefix,
local-identifier) pair representing a full URI (`curies.Reference`).
`pfx` is the `prefix` field of the source; `prefix` is a reserved word in
Lean. -/
structure Reference where
  pfx : String
  identifier : String
deriving DecidableEq

/-- The failures that can abort a `process` call. -/
inductive ProcessError where
  /-- Strict resolution failed: no registered namespace root matches the
  URI (`UnresolvedURIError` in the spec's taxonomy). -/
  | unresolvedURI (uri : String)
  /-- A union-typed field held a value matching none of its declared
  variants (`raise TypeError` in `Annotation.process`; `TypeMismatchError`
  in the spec's taxonomy). -/
  | typeMismatch
  /-- `.process` was invoked on a `None` element (a JSKOS-set null handed
  to `process_many`). -/
  | attributeError
  /-- A processed-model field rejected the assigned value (model
  validation of the constructed output). -/
  | validationError
deriving DecidableEq

/-- Modelled from the spec: a reference resolver is built from a prefix
table, a mapping from namespace prefixes to URI-namespace roots
(`curies.Converter`).  A prefix may carry several roots (synonyms), so the
table is a list of (prefix, root) pairs. -/
structure Converter where
  records : List (String × String)

/-- Character-list prefix test (`str.startswith`). -/
def strIsPrefixOf (p s : String) : Bool :=
  p.data.isPrefixOf s.data

/-- Remove a leading namespace root from a URI, leaving the local
identifier. -/
def strDropPrefix (p s : String) : String :=
  ⟨s.data.drop p.data.length⟩

/-- Modelled from the spec: longest-prefix match over the prefix table.
Returns the record whose URI-namespace root is the longest prefix of the
URI; on ties the earliest record wins. -/
def bestRecord : List (String × String) → String → Option (String × String)
  | [], _ => none
  | r :: rest, uri =>
    let best := bestRecord rest uri
    if strIsPrefixOf r.2 uri then
      match best with
      | none => some r
      | some b => if r.2.data.length < b.2.data.length then some b else some r
    else best

/-- Modelled from the spec: `resolve(uri, strict=true)` /
`converter.parse_uri(uri, strict=True)`.  Fails with `UnresolvedURIError`
when no registered namespace root is a prefix of the URI; otherwise the
identifier is the URI with the matched root removed, so expanding the
reference reproduces the URI exactly. -/
def Converter.parse_uri (conv : Converter) (uri : String) : Except ProcessError Reference :=
  match bestRecord conv.records uri with
  | some r => .ok ⟨r.1, strDropPrefix r.2 uri⟩
  | none => .error (.unresolvedURI uri)

/-- Modelled from the spec: expanding a compact reference under the same
prefix table, namespace root concatenated with the local identifier. -/
def Converter.expand (conv : Converter) : Reference → Option String
  | ⟨p, i⟩ =>
    match conv.records.find? (fun r => r.1 == p) with
    | some r => some (r.2 ++ i)
    | none => none

/-- Model of `_parse_optional_url` (api.py lines 651-654): `None` passes through,
otherwise strict resolution.  `Resource.process` inlines the same
conditional for its `uri` field. -/
def _parse_optional_url (conv : Converter) : Option URI → Except ProcessError (Option Reference)
  | none => .ok none
  | some u => (conv.parse_uri u).map some

/-- Element-wise strict resolution of a URI list, in order. -/
def _parse_urls_go (conv : Converter) : List URI → Except ProcessError (List Reference)
  | [] => .ok []
  | u :: rest => do
    let r ← conv.parse_uri u
    let tail ← _parse_urls_go conv rest
    return r :: tail

/-- Model of `_parse_optional_urls` (api.py lines 643-648): `None` passes through,
otherwise each URI is strictly resolved, preserving order. -/
def _parse_optional_urls (conv : Converter) : Option (List URI) → Except ProcessError (Option (List Reference))
  | none => .ok none
  | some l => (_parse_urls_go conv l).map some

/-- Insert a key-value pair into an insertion-ordered association list
with Python `dict` semantics: an existing key keeps its position and gets
the new value; a new key is appended. -/
def dictInsert (m : List (Reference × β)) (k : Reference) (v : β) : List (Reference × β) :=
  if m.any (fun p => decide (p.1 = k)) then
    m.map (fun p => if p.1 = k then (k, v) else p)
  else m ++ [(k, v)]

/-- Build a dict from processed (key, value) pairs in input order,
last-write-wins on duplicate keys. -/
def dictCollapse (l : List (Reference × β)) : List (Reference × β) :=
  l.foldl (fun acc p => dictInsert acc p.1 p.2) []

/-- Model of `_PROTOCOLS = {"http", "https"}` (api.py line 44). -/
def _PROTOCOLS : List String := ["http", "https"]

/-- The argument of `read`: `str | Path`. -/
inductive ReadArg where
  | str (s : String)
  | path (p : String)
deriving DecidableEq

/-- What `read` does with its argument before any I/O happens. -/
inductive ReadAction where
  | httpGet (url : String)
  | openFile (p : String)
deriving DecidableEq

/-- The dispatch in `read` (api.py lines 511-518): a string argument that
starts with any protocol in `_PROTOCOLS` is fetched over HTTP; any other
argument is opened as a local file.  The I/O itself is abstracted away. -/
def read_dispatch : ReadArg → ReadAction
  | .str s =>
    if _PROTOCOLS.any (fun proto => strIsPrefixOf proto s) then .httpGet s
    else .openFile s
  | .path p => .openFile p

mutual

/-- Model of `Resource` / `ResourceMixin` (api.py lines 53-78, 238-239).  JSKOS
sets are `list[Resource | None]`; the qualified dictionaries are
insertion-ordered association lists keyed by URI. -/
inductive Resource where
  | mk (context : Option ContextVal) (uri : Option URI)
      (identifier : Option (List URI)) (type : Option (List URI))
      (created issued modified : Option JDate)
      (creator contributor source publisher part_of : Option (List (Option Resource)))
      (annotations : Option (List Annotation))
      (qualified_relations : Option (List (URI × QualifiedRelation)))
      (qualified_dates : Option (List (URI × QualifiedDate)))
      (qualified_literals : Option (List (URI × QualifiedLiteral)))
      (rank : Option Rank)

/-- Model of `Annotation` (api.py lines 190-196). -/
inductive Annotation where
  | mk (context : URI) (type : String) (id : URI) (target : AnnotationTarget)

/-- The polymorphic `Annotation.target` union `AnyUrl | Resource |
Annotation`.  The `invalid` variant stands for a raw value matching none
of the three declared variants, the `case _` branch of the `match` in
`Annotation.process`. -/
inductive AnnotationTarget where
  | url (u : URI)
  | res (r : Resource)
  | ann (a : Annotation)
  | invalid

/-- Model of `QualifiedRelation` (api.py lines 105-108), with the shared
`QualifiedValue` fields inlined. -/
inductive QualifiedRelation where
  | mk (start_date end_date : Option JDate)
      (source : Option (List (Option Resource))) (rank : Option Rank)
      (resource : Resource)

/-- Model of `QualifiedDate` (api.py lines 128-132). -/
inductive QualifiedDate where
  | mk (start_date end_date : Option JDate)
      (source : Option (List (Option Resource))) (rank : Option Rank)
      (date : JDate) (place : Option (List (Option Resource)))

/-- Model of `QualifiedLiteral` (api.py lines 161-166). -/
inductive QualifiedLiteral where
  | mk (start_date end_date : Option JDate)
      (source : Option (List (Option Resource))) (rank : Option Rank)
      (literal : QualifiedLiteralInner) (uri : Option URI)
      (type : Option (List URI))

end

/-- A JSKOS set: an ordered sequence of resources and null placeholders
(`type JSKOSSet = list[Resource | None]`). -/
abbrev JSKOSSet := List (Option Resource)

mutual

/-- Model of `ProcessedResource` (api.py lines 216-235).  The `type` field is
assigned `self.type` unchanged by `Resource.process` (line 249), so it
holds raw URIs here even though the source annotates it as
`list[Reference]`. -/
inductive ProcessedResource where
  | mk (context : Option ContextVal) (reference : Option Reference)
      (identifier : Option (List Reference)) (type : Option (List URI))
      (created issued modified : Option JDate)
      (creator contributor source publisher part_of : Option (List (Option ProcessedResource)))
      (annotations : Option (List ProcessedAnnotation))
      (qualified_relations : Option (List (Reference × ProcessedQualifiedRelation)))
      (qualified_dates : Option (List (Reference × ProcessedQualifiedDate)))
      (qualified_literals : Option (List (Reference × ProcessedQualifiedLiteral)))
      (rank : Option Rank)

/-- Model of `ProcessedAnnotation` (api.py lines 181-187). -/
inductive ProcessedAnnotation where
  | mk (context : URI) (type : String) (reference : Reference)
      (target : ProcessedAnnotationTarget)

/-- The processed `target` union `Reference | ProcessedResource |
ProcessedAnnotation`. -/
inductive ProcessedAnnotationTarget where
  | ref (r : Reference)
  | res (r : ProcessedResource)
  | ann (a : ProcessedAnnotation)

/-- Model of `ProcessedQualifiedRelation` (api.py lines 99-102). -/
inductive ProcessedQualifiedRelation where
  | mk (start_date end_date : Option JDate)
      (source : Option (List (Option ProcessedResource))) (rank : Option Rank)
      (resource : ProcessedResource)

/-- Model of `ProcessedQualifiedDate` (api.py lines 121-125). -/
inductive ProcessedQualifiedDate where
  | mk (start_date end_date : Option JDate)
      (source : Option (List (Option ProcessedResource))) (rank : Option Rank)
      (date : JDate) (place : Option (List (Option ProcessedResource)))

/-- Model of `ProcessedQualifiedLiteral` (api.py lines 153-158). -/
inductive ProcessedQualifiedLiteral where
  | mk (start_date end_date : Option JDate)
      (source : Option (List (Option ProcessedResource))) (rank : Option Rank)
      (literal : QualifiedLiteralInner) (reference : Option Reference)
      (type : Option (List Reference))

end

/-- A processed JSKOS set (`type ProcessedJSKOSSet =
list[ProcessedResource | None]`). -/
abbrev ProcessedJSKOSSet := List (Option ProcessedResource)

mutual

/-- Model of `Resource.process` (api.py lines 241-263): strict resolution of `uri`
and `identifier`, recursive processing of JSKOS sets, annotations and the
three qualified dictionaries, pass-through of everything else, in the
source's keyword order. -/
def Resource.process (conv : Converter) : Resource → Except ProcessError ProcessedResource
  | .mk context uri identifier type created issued modified creator contributor source
      publisher part_of annotations qualified_relations qualified_dates qualified_literals
      rank => do
    let reference ← _parse_optional_url conv uri
    let identifier2 ← _parse_optional_urls conv identifier
    let creator2 ← _process_jskos_set conv creator
    let contributor2 ← _process_jskos_set conv contributor
    let source2 ← _process_jskos_set conv source
    let publisher2 ← _process_jskos_set conv publisher
    let part_of2 ← _process_jskos_set conv part_of
    let annotations2 ← process_many_ann conv annotations
    let qualified_relations2 ← _process_dict_relations conv qualified_relations
    let qualified_dates2 ← _process_dict_dates conv qualified_dates
    let qualified_literals2 ← _process_dict_literals conv qualified_literals
    return .mk context reference identifier2 type created issued modified creator2
      contributor2 source2 publisher2 part_of2 annotations2 qualified_relations2
      qualified_dates2 qualified_literals2 rank
termination_by structural r => r

/-- Model of `_process_jskos_set` (api.py lines 626-629): `None` passes through. -/
def _process_jskos_set (conv : Converter) :
    Option (List (Option Resource)) → Except ProcessError (Option (List (Option ProcessedResource)))
  | none => .ok none
  | some s => (_process_jskos_elems conv s).map some
termination_by structural o => o

/-- The comprehension in `_process_jskos_set`: null placeholders pass
through at their positions, non-null elements are processed, in order. -/
def _process_jskos_elems (conv : Converter) :
    List (Option Resource) → Except ProcessError (List (Option ProcessedResource))
  | [] => .ok []
  | none :: rest => do
    let tail ← _process_jskos_elems conv rest
    return none :: tail
  | some e :: rest => do
    let pe ← Resource.process conv e
    let tail ← _process_jskos_elems conv rest
    return some pe :: tail
termination_by structural l => l

/-- Model of `process_many` applied to an `annotations` list (`curies.mixins`,
modelled from its use sites): `None` maps to `None`, elements are
processed in order. -/
def process_many_ann (conv : Converter) :
    Option (List Annotation) → Except ProcessError (Option (List ProcessedAnnotation))
  | none => .ok none
  | some l => (process_ann_list conv l).map some
termination_by structural o => o

/-- Element-wise processing of an annotation list. -/
def process_ann_list (conv : Converter) :
    List Annotation → Except ProcessError (List ProcessedAnnotation)
  | [] => .ok []
  | a :: rest => do
    let pa ← Annotation.process conv a
    let tail ← process_ann_list conv rest
    return pa :: tail
termination_by structural l => l

/-- Model of `Annotation.process` (api.py lines 198-213): the target is dispatched
on its shape first, then `id` is strictly resolved. -/
def Annotation.process (conv : Converter) : Annotation → Except ProcessError ProcessedAnnotation
  | .mk context type id target => do
    let target2 ← processAnnTarget conv target
    let reference ← conv.parse_uri id
    return .mk context type reference target2
termination_by structural a => a

/-- The `match self.target` block of `Annotation.process`: a `Resource`
or nested annotation recurses, a bare URI is strictly resolved, and
anything outside the declared union raises `TypeError`. -/
def processAnnTarget (conv : Converter) :
    AnnotationTarget → Except ProcessError ProcessedAnnotationTarget
  | .res r => (Resource.process conv r).map .res
  | .ann a => ( Annotation.process conv a).map .ann
  | .url u => (conv.parse_uri u).map .ref
  | .invalid => .error .typeMismatch
termination_by structural t => t

/-- Model of `QualifiedRelation.process` (api.py lines 110-118). -/
def QualifiedRelation.process (conv : Converter) :
    QualifiedRelation → Except ProcessError ProcessedQualifiedRelation
  | .mk start_date end_date source rank resource => do
    let source2 ← _process_jskos_set conv source
    let resource2 ← Resource.process conv resource
    return .mk start_date end_date source2 rank resource2
termination_by structural q => q

/-- Model of `QualifiedDate.process` (api.py lines 134-143). -/
def QualifiedDate.process (conv : Converter) :
    QualifiedDate → Except ProcessError ProcessedQualifiedDate
  | .mk start_date end_date source rank date place => do
    let source2 ← _process_jskos_set conv source
    let place2 ← _process_jskos_set conv place
    return .mk start_date end_date source2 rank date place2
termination_by structural q => q

/-- Model of `QualifiedLiteral.process` (api.py lines 168-178). -/
def QualifiedLiteral.process (conv : Converter) :
    QualifiedLiteral → Except ProcessError ProcessedQualifiedLiteral
  | .mk start_date end_date source rank literal uri type => do
    let source2 ← _process_jskos_set conv source
    let reference ← _parse_optional_url conv uri
    let type2 ← _parse_optional_urls conv type
    return .mk start_date end_date source2 rank literal reference type2
termination_by structural q => q

/-- Model of `_process_dict` (api.py lines 632-640) at `qualifiedRelations`:
`None` passes through; otherwise keys are strictly resolved and values
processed in insertion order, and the comprehension's dict build gives
last-write-wins on colliding keys. -/
def _process_dict_relations (conv : Converter) :
    Option (List (URI × QualifiedRelation)) →
      Except ProcessError (Option (List (Reference × ProcessedQualifiedRelation)))
  | none => .ok none
  | some l => (_process_rel_entries conv l).map (fun es => some (dictCollapse es))
termination_by structural o => o

/-- Entry-wise key resolution and value processing for
`qualifiedRelations`. -/
def _process_rel_entries (conv : Converter) :
    List (URI × QualifiedRelation) →
      Except ProcessError (List (Reference × ProcessedQualifiedRelation))
  | [] => .ok []
  | (k, v) :: rest => do
    let rk ← conv.parse_uri k
    let pv ← QualifiedRelation.process conv v
    let tail ← _process_rel_entries conv rest
    return (rk, pv) :: tail
termination_by structural l => l

/-- Model of `_process_dict` at `qualifiedDates`. -/
def _process_dict_dates (conv : Converter) :
    Option (List (URI × QualifiedDate)) →
      Except ProcessError (Option (List (Reference × ProcessedQualifiedDate)))
  | none => .ok none
  | some l => (_process_date_entries conv l).map (fun es => some (dictCollapse es))
termination_by structural o => o

/-- Entry-wise key resolution and value processing for `qualifiedDates`. -/
def _process_date_entries (conv : Converter) :
    List (URI × QualifiedDate) →
      Except ProcessError (List (Reference × ProcessedQualifiedDate))
  | [] => .ok []
  | (k, v) :: rest => do
    let rk ← conv.parse_uri k
    let pv ← QualifiedDate.process conv v
    let tail ← _process_date_entries conv rest
    return (rk, pv) :: tail
termination_by structural l => l

/-- Model of `_process_dict` at `qualifiedLiterals`. -/
def _process_dict_literals (conv : Converter) :
    Option (List (URI × QualifiedLiteral)) →
      Except ProcessError (Option (List (Reference × ProcessedQualifiedLiteral)))
  | none => .ok none
  | some l => (_process_lit_entries conv l).map (fun es => some (dictCollapse es))
termination_by structural o => o

/-- Entry-wise key resolution and value processing for
`qualifiedLiterals`. -/
def _process_lit_entries (conv : Converter) :
    List (URI × QualifiedLiteral) →
      Except ProcessError (List (Reference × ProcessedQualifiedLiteral))
  | [] => .ok []
  | (k, v) :: rest => do
    let rk ← conv.parse_uri k
    let pv ← QualifiedLiteral.process conv v
    let tail ← _process_lit_entries conv rest
    return (rk, pv) :: tail
termination_by structural l => l

end

/-- The `ResourceMixin` field block (api.py lines 53-78), shared through
inheritance by `Item`, `Concept`, `Mapping`, `ConceptScheme` and
`Occurrence`; embedded here by composition. -/
structure ResourceFields where
  context : Option ContextVal
  uri : Option URI
  identifier : Option (List URI)
  type : Option (List URI)
  created : Option JDate
  issued : Option JDate
  modified : Option JDate
  creator : Option JSKOSSet
  contributor : Option JSKOSSet
  source : Option JSKOSSet
  publisher : Option JSKOSSet
  part_of : Option JSKOSSet
  annotations : Option (List Annotation)
  qualified_relations : Option (List (URI × QualifiedRelation))
  qualified_dates : Option (List (URI × QualifiedDate))
  qualified_literals : Option (List (URI × QualifiedLiteral))
  rank : Option Rank

/-- The non-recursive `ItemMixin` fields (api.py lines 266-301).  `notatn`
is the source's `notation` and `example_` its `example`; both source names
are reserved words in Lean.  The `Item`-linking fields (`replacedBy`,
`basedOn`, `tool`, `issue`, `issueTracker`, `guidelines`, `versionOf`)
recurse into `Item` and therefore live on each concrete entity below. -/
structure ItemFields where
  notatn : Option (List String)
  preferred_label : Option LanguageMap
  alternative_label : Option LanguageMapOfList
  hidden_label : Option LanguageMapOfList
  scope_note : Option LanguageMapOfList
  definition : Option LanguageMapOfList
  example_ : Option LanguageMapOfList
  history_note : Option LanguageMapOfList
  editorial_note : Option LanguageMapOfList
  change_note : Option LanguageMapOfList
  note : Option LanguageMapOfList
  start_date : Option JDate
  end_date : Option JDate
  related_date : Option JDate
  related_dates : Option (List JDate)
  start_place : Option JSKOSSet
  end_place : Option JSKOSSet
  place : Option JSKOSSet
  subject : Option JSKOSSet
  subject_of : Option JSKOSSet
  depiction : Option (List AnyVal)
  version : Option String

mutual

/-- Model of `Item` (api.py lines 303-304): the resource fields, the item fields
and the recursive `Item`-link lists. -/
inductive Item where
  | mk (res : ResourceFields) (item : ItemFields)
      (replaced_by based_on tool issue issue_tracker guidelines version_of :
        Option (List Item))

/-- Model of `Concept` (api.py lines 464-477): an item, a concept bundle, and the
concept-specific fields. -/
inductive Concept where
  | mk (res : ResourceFields) (item : ItemFields)
      (replaced_by based_on tool issue issue_tracker guidelines version_of :
        Option (List Item))
      (member_set member_list member_choice : Option (List Concept))
      (narrower broader related previous next ancestors : Option JSKOSSet)
      (in_scheme top_concept_of : Option (List ConceptScheme))
      (mappings : Option (List Mapping))
      (occurrences : Option (List Occurrence))
      (deprecated : Option Bool)

/-- Model of `Mapping` (api.py lines 360-378).  `namespace_`-style renames do not
apply here; `subject_bundle`/`object_bundle` are the source's `from`/`to`
aliases. -/
inductive Mapping where
  | mk (res : ResourceFields) (item : ItemFields)
      (replaced_by based_on tool issue issue_tracker guidelines version_of :
        Option (List Item))
      (subject_bundle object_bundle : ConceptBundle)
      (from_scheme to_scheme : Option ConceptScheme)
      (mapping_relevance : Option Rat)
      (justification : Option URI)

/-- Model of `ConceptScheme` (api.py lines 396-410).  `namespace_` is the source's
`namespace`, a reserved word in Lean; `uriPattern`, `notationPattern` and
`notationExamples` use the source's serialization aliases. -/
inductive ConceptScheme where
  | mk (res : ResourceFields) (item : ItemFields)
      (replaced_by based_on tool issue issue_tracker guidelines version_of :
        Option (List Item))
      (top_concepts : Option (List Concept))
      (namespace_ : Option URI)
      (uriPattern notationPattern : Option String)
      (notationExamples : Option (List String))

/-- Model of `ConceptBundle` / `ConceptBundleMixin` (api.py lines 429-448). -/
inductive ConceptBundle where
  | mk (member_set member_list member_choice : Option (List Concept))

/-- Model of `Occurrence` (api.py lines 451-461): resource fields, the concept
bundle fields, and the occurrence-specific fields.  The source defines no
`process` method for this class. -/
inductive Occurrence where
  | mk (res : ResourceFields)
      (member_set member_list member_choice : Option (List Concept))
      (database : Option Item)
      (count : Option Int)
      (frequency : Option Rat)
      (relation : Option URI)
      (schemes : Option (List ConceptScheme))
      (url : Option URI)
      (template : Option String)
      (separator : Option String)

end

/-- Model of `KOS` (api.py lines 491-498). -/
structure KOS where
  id : String
  type : String
  title : LanguageMap
  description : LanguageMap
  has_top_concept : Option (List Concept)

/-- Model of `ProcessedItem` (api.py lines 527-561): the `ProcessedResource`
fields plus the six label fields that `Item.process` carries.  The fields
commented out in the source (`historyNote`, `editorialNote`, `changeNote`,
`note`, dates, places, links, `version`, …) do not exist on the processed
model. -/
structure ProcessedItem where
  base : ProcessedResource
  preferred_label : Option LanguageMap
  alternative_label : Option LanguageMapOfList
  hidden_label : Option LanguageMapOfList
  scope_note : Option LanguageMapOfList
  definition : Option LanguageMapOfList
  example_ : Option LanguageMapOfList

mutual

/-- Model of `ProcessedConcept` (api.py lines 600-613).  The source annotates
`narrower`/`broader`/`related` as `list[ProcessedConcept]`, but
`Concept.process` fills them by processing raw `Resource` elements, so the
computed element type is `ProcessedResource`. -/
inductive ProcessedConcept where
  | mk (item : ProcessedItem)
      (member_set member_list member_choice : Option (List ProcessedConcept))
      (narrower broader related : Option (List ProcessedResource))
      (mappings : Option (List ProcessedMapping))
      (deprecated : Option Bool)

/-- Model of `ProcessedMapping` (api.py lines 589-597). -/
inductive ProcessedMapping where
  | mk (from_bundle to_bundle : ProcessedConceptBundle)
      (from_scheme to_scheme : Option ProcessedConceptScheme)
      (mapping_relevance : Option Rat)
      (justification : Option Reference)

/-- Model of `ProcessedConceptBundle` (api.py lines 564-570). -/
inductive ProcessedConceptBundle where
  | mk (member_set member_list member_choice : Option (List ProcessedConcept))

/-- Model of `ProcessedConceptScheme` (api.py lines 573-586). -/
inductive ProcessedConceptScheme where
  | mk (top_concepts : Option (List ProcessedConcept))
      (namespace_ : Option URI)
      (uriPattern notationPattern : Option String)
      (notationExamples : Option (List String))

end

/-- Model of `ProcessedKOS` (api.py lines 616-623).  `concepts` is a required list
field whose `default_factory` applies only when the argument is omitted. -/
structure ProcessedKOS where
  id : String
  type : String
  title : LanguageMap
  description : LanguageMap
  concepts : List ProcessedConcept

/-- The pydantic defaults of `ProcessedResource`: every optional field is
`None` unless the constructor call passes it. -/
def ProcessedResource.defaults : ProcessedResource :=
  .mk none none none none none none none none none none none none none none none
    none none

/-- The pydantic defaults of `ProcessedItem`. -/
def ProcessedItem.defaults : ProcessedItem :=
  ⟨ProcessedResource.defaults, none, none, none, none, none, none⟩

/-- Model of `Item.process` (api.py lines 306-357): strict resolution of `uri` and
`identifier`, pass-through of `type`, the three dates and the six label
fields; every other raw field is omitted from the constructor call, so the
processed model holds its default `None` for the commented-out fields. -/
def Item.process (conv : Converter) : Item → Except ProcessError ProcessedItem
  | .mk res item _ _ _ _ _ _ _ => do
    let reference ← _parse_optional_url conv res.uri
    let identifier2 ← _parse_optional_urls conv res.identifier
    return ⟨.mk none reference identifier2 res.type res.created res.issued res.modified
        none none none none none none none none none none,
      item.preferred_label, item.alternative_label, item.hidden_label,
      item.scope_note, item.definition, item.example_⟩

/-- Model of `process_many` applied to a JSKOS set, as `Concept.process` does for
`narrower`/`broader`/`related` (api.py lines 483-485).  Unlike
`_process_jskos_set`, `process_many` calls `.process` on every element, so
a null placeholder fails the call (`None` has no `process` method). -/
def process_many_jskos_elems (conv : Converter) :
    List (Option Resource) → Except ProcessError (List ProcessedResource)
  | [] => .ok []
  | none :: _ => .error .attributeError
  | some r :: rest => do
    let pr ← Resource.process conv r
    let tail ← process_many_jskos_elems conv rest
    return pr :: tail

/-- Model of `process_many` on an optional JSKOS set: `None` maps to `None`. -/
def process_many_jskos (conv : Converter) :
    Option (List (Option Resource)) → Except ProcessError (Option (List ProcessedResource))
  | none => .ok none
  | some l => (process_many_jskos_elems conv l).map some

mutual

/-- Model of `Concept.process` (api.py lines 479-488): only `narrower`, `broader`,
`related`, `mappings` and `deprecated` are passed to the
`ProcessedConcept` constructor; the item-mixin fields are left at their
defaults (`# TODO fill in item mixin`). -/
def Concept.process (conv : Converter) : Concept → Except ProcessError ProcessedConcept
  | .mk _ _ _ _ _ _ _ _ _ _ _ _ narrower broader related _ _ _ _ _ mappings _
      deprecated => do
    let narrower2 ← process_many_jskos conv narrower
    let broader2 ← process_many_jskos conv broader
    let related2 ← process_many_jskos conv related
    let mappings2 ← process_many_mappings conv mappings
    return .mk ProcessedItem.defaults none none none narrower2 broader2 related2
      mappings2 deprecated
termination_by structural c => c

/-- Model of `process_many` on an optional mapping list. -/
def process_many_mappings (conv : Converter) :
    Option (List Mapping) → Except ProcessError (Option (List ProcessedMapping))
  | none => .ok none
  | some l => (process_mapping_list conv l).map some
termination_by structural o => o

/-- Element-wise processing of a mapping list. -/
def process_mapping_list (conv : Converter) :
    List Mapping → Except ProcessError (List ProcessedMapping)
  | [] => .ok []
  | m :: rest => do
    let pm ← Mapping.process conv m
    let tail ← process_mapping_list conv rest
    return pm :: tail
termination_by structural l => l

/-- Model of `Mapping.process` (api.py lines 380-393). -/
def Mapping.process (conv : Converter) : Mapping → Except ProcessError ProcessedMapping
  | .mk _ _ _ _ _ _ _ _ _ subject_bundle object_bundle from_scheme to_scheme
      mapping_relevance justification => do
    let from_bundle ← ConceptBundle.process conv subject_bundle
    let to_bundle ← ConceptBundle.process conv object_bundle
    let from_scheme2 ← process_opt_scheme conv from_scheme
    let to_scheme2 ← process_opt_scheme conv to_scheme
    let justification2 ← _parse_optional_url conv justification
    return .mk from_bundle to_bundle from_scheme2 to_scheme2 mapping_relevance
      justification2
termination_by structural m => m

/-- The `from_scheme`/`to_scheme` conditionals of `Mapping.process`. -/
def process_opt_scheme (conv : Converter) :
    Option ConceptScheme → Except ProcessError (Option ProcessedConceptScheme)
  | none => .ok none
  | some s => (ConceptScheme.process conv s).map some
termination_by structural o => o

/-- Model of `ConceptScheme.process` (api.py lines 412-426). -/
def ConceptScheme.process (conv : Converter) :
    ConceptScheme → Except ProcessError ProcessedConceptScheme
  | .mk _ _ _ _ _ _ _ _ _ top_concepts namespace_ uriPattern notationPattern
      notationExamples => do
    let top_concepts2 ← process_many_concepts conv top_concepts
    return .mk top_concepts2 namespace_ uriPattern notationPattern notationExamples
termination_by structural s => s

/-- Model of `process_many` on an optional concept list. -/
def process_many_concepts (conv : Converter) :
    Option (List Concept) → Except ProcessError (Option (List ProcessedConcept))
  | none => .ok none
  | some l => (process_concept_list conv l).map some
termination_by structural o => o

/-- Element-wise processing of a concept list. -/
def process_concept_list (conv : Converter) :
    List Concept → Except ProcessError (List ProcessedConcept)
  | [] => .ok []
  | c :: rest => do
    let pc ← Concept.process conv c
    let tail ← process_concept_list conv rest
    return pc :: tail
termination_by structural l => l

/-- Model of `ConceptBundle.process` (api.py lines 441-448). -/
def ConceptBundle.process (conv : Converter) :
    ConceptBundle → Except ProcessError ProcessedConceptBundle
  | .mk member_set member_list member_choice => do
    let member_set2 ← process_many_concepts conv member_set
    let member_list2 ← process_many_concepts conv member_list
    let member_choice2 ← process_many_concepts conv member_choice
    return .mk member_set2 member_list2 member_choice2
termination_by structural b => b

end

/-- Model of `KOS.process` (api.py lines 500-508).  `process_many` maps an absent
`has_top_concept` to `None`, and the `ProcessedKOS` constructor's required
`concepts` list field rejects `None` (its `default_factory` applies only
when the argument is omitted, and the argument is always passed), so the
call fails; when top concepts are present the scalar fields are carried
over and the concepts are processed element-wise. -/
def KOS.process (conv : Converter) (k : KOS) : Except ProcessError ProcessedKOS := do
  let cs ← process_many_concepts conv k.has_top_concept
  match cs with
  | some l => return ⟨k.id, k.type, k.title, k.description, l⟩
  | none => .error .validationError


/-- A raw `Resource` with every optional field absent. -/
def Resource.empty : Resource :=
  .mk none none none none none none none none none none none none none none none
    none none

/-- A `ResourceFields` block with every field absent. -/
def ResourceFields.empty : ResourceFields :=
  ⟨none, none, none, none, none, none, none, none, none, none, none, none, none,
    none, none, none, none⟩

/-- An `ItemFields` block with every field absent. -/
def ItemFields.empty : ItemFields :=
  ⟨none, none, none, none, none, none, none, none, none, none, none, none, none,
    none, none, none, none, none, none, none, none, none⟩

/-- A raw `Concept` with every optional field absent. -/
def Concept.empty : Concept :=
  .mk ResourceFields.empty ItemFields.empty none none none none none none none
    none none none none none none none none none none none none none none

/-- A raw `Item` with every optional field absent. -/
def Item.empty : Item :=
  .mk ResourceFields.empty ItemFields.empty none none none none none none none

/-- Replace the `occurrences` field of a raw `Concept`. -/
def Concept.setOccurrences (v : Option (List Occurrence)) : Concept → Concept
  | .mk res item replaced_by based_on tool issue issue_tracker guidelines version_of
      member_set member_list member_choice narrower broader related previous next
      ancestors in_scheme top_concept_of mappings _ deprecated =>
    .mk res item replaced_by based_on tool issue issue_tracker guidelines version_of
      member_set member_list member_choice narrower broader related previous next
      ancestors in_scheme top_concept_of mappings v deprecated

/-- The `rank` field of a raw `Resource`. -/
def Resource.rank : Resource → Option Rank
  | .mk _ _ _ _ _ _ _ _ _ _ _ _ _ _ _ _ rank => rank

/-- The `uri` field of a raw `Resource`. -/
def Resource.uri : Resource → Option URI
  | .mk _ uri _ _ _ _ _ _ _ _ _ _ _ _ _ _ _ => uri

/-- The `resource` field of a raw `QualifiedRelation`. -/
def QualifiedRelation.resource : QualifiedRelation → Resource
  | .mk _ _ _ _ resource => resource

/-- The `reference` field of a `ProcessedResource`. -/
def ProcessedResource.reference : ProcessedResource → Option Reference
  | .mk _ reference _ _ _ _ _ _ _ _ _ _ _ _ _ _ _ => reference

/-- The `rank` field of a `ProcessedResource`. -/
def ProcessedResource.rank : ProcessedResource → Option Rank
  | .mk _ _ _ _ _ _ _ _ _ _ _ _ _ _ _ _ rank => rank

/-- The `reference` field a `ProcessedConcept` inherits from
`ProcessedResource` through `ProcessedItem`. -/
def ProcessedConcept.reference : ProcessedConcept → Option Reference
  | .mk item _ _ _ _ _ _ _ _ => ProcessedResource.reference item.base

/-- The `resource` field of a `ProcessedQualifiedRelation`. -/
def ProcessedQualifiedRelation.resource : ProcessedQualifiedRelation → ProcessedResource
  | .mk _ _ _ _ resource => resource

/-- The `mapping_relevance` field of a `ProcessedMapping`. -/
def ProcessedMapping.mapping_relevance : ProcessedMapping → Option Rat
  | .mk _ _ _ _ mapping_relevance _ => mapping_relevance

/-- The prefix table `{"wikidata": "http://www.wikidata.org/entity/"}` of
the spec's end-to-end example and the repository's own test suite. -/
def wikidataConverter : Converter :=
  ⟨[("wikidata", "http://www.wikidata.org/entity/")]⟩

/-- The prefix table `{"skosxl": "http://www.w3.org/2008/05/skos-xl#"}` of
the spec's dict-key-resolution example. -/
def skosxlConverter : Converter :=
  ⟨[("skosxl", "http://www.w3.org/2008/05/skos-xl#")]⟩

/-- The prefix table `{"a": "http://a/"}` matching the spec's null
preservation example `[null, {uri:"http://a/b"}, null]`. -/
def aConverter : Converter :=
  ⟨[("a", "http://a/")]⟩

/-- A raw `Concept` whose only populated field is
`uri = "http://www.wikidata.org/entity/Q406"`, the input of the spec's
end-to-end example. -/
def conceptQ406 : Concept :=
  .mk ⟨none, some "http://www.wikidata.org/entity/Q406", none, none, none, none,
      none, none, none, none, none, none, none, none, none, none, none⟩
    ItemFields.empty none none none none none none none none none none none none
    none none none none none none none none none


/-- A raw `Resource` whose only populated field is a `@context` URI that
no registered namespace matches.  `@context` is a pass-through field, not
a resolved position. -/
def resourceBadContext : Resource :=
  .mk (some (.one "http://unregistered.example/x")) none none none none none none
    none none none none none none none none none none

/-- A raw `Resource` whose `uri` is `"http://unregistered.example/x"`, a
URI outside every registered namespace. -/
def resourceBadURI : Resource :=
  .mk none (some "http://unregistered.example/x") none none none none none none
    none none none none none none none none none

/-- A raw `Resource` with `uri = "http://a/b"`, the non-null element of
the spec's null-preservation example. -/
def resourceAB : Resource :=
  .mk none (some "http://a/b") none none none none none none none none none none
    none none none none none

/-- A raw `Concept` whose `narrower` JSKOS set is
`[null, {uri: "http://a/b"}, null]`, the spec's null-preservation
example. -/
def conceptNullNarrower : Concept :=
  .mk ResourceFields.empty ItemFields.empty none none none none none none none
    none none none (some [none, some resourceAB, none]) none none none none none
    none none none none none

/-- The first qualified literal of the repository test `test_18`
(`İstanbul`, Turkish, rank `preferred`), with its `type` list omitted. -/
def qualifiedLiteralIstanbul : QualifiedLiteral :=
  .mk none none none (some .preferred) ⟨"İstanbul", some "tr"⟩ none none

/-- A prefix table in which the prefix `p` has two registered namespace
roots (curies prefix synonyms), so two distinct URIs compact to the same
reference. -/
def synonymConverter : Converter :=
  ⟨[("p", "http://x/"), ("p", "http://y/")]⟩

/-- A qualified relation with an empty resource and no other fields. -/
def qualifiedRelationA : QualifiedRelation :=
  .mk none none none none Resource.empty

/-- A second qualified relation, distinguished by its `start_date`. -/
def qualifiedRelationB : QualifiedRelation :=
  .mk (some "1930") none none none Resource.empty

/-- A raw `Item` whose only populated field is `rank = preferred`. -/
def itemWithRank : Item :=
  .mk ⟨none, none, none, none, none, none, none, none, none, none, none, none,
      none, none, none, none, some .preferred⟩
    ItemFields.empty none none none none none none none

/-- An `ItemFields` block whose only populated field is a German preferred
label. -/
def itemFieldsPref : ItemFields :=
  ⟨none, some [("de", "Mittelalterliche Philosophie")], none, none, none, none,
    none, none, none, none, none, none, none, none, none, none, none, none, none,
    none, none, none⟩

/-- The `mapping_relevance` field of a raw `Mapping`. -/
def Mapping.mapping_relevance : Mapping → Option Rat
  | .mk _ _ _ _ _ _ _ _ _ _ _ _ _ mapping_relevance _ => mapping_relevance

/-- A raw `Item` whose `uri` is outside every registered namespace; used
as an occurrence's `database`. -/
def databaseItem : Item :=
  .mk ⟨none, some "http://unregistered.example/x", none, none, none, none, none,
      none, none, none, none, none, none, none, none, none, none⟩
    ItemFields.empty none none none none none none none

/-- An `Occurrence` whose only populated field is a `database` whose `uri`
would fail strict resolution if it were ever processed. -/
def occurrenceWithDatabase : Occurrence :=
  .mk ResourceFields.empty none none none (some databaseItem) none none none none
    none none none

/-- A `KOS` with the required scalar fields populated and no
`hasTopConcept`. -/
def kosNoTop : KOS :=
  ⟨"https://example.org/kos", "skos:ConceptScheme", [("en", "T")], [("en", "D")],
    none⟩


mutual

/-- The URIs of a raw `Resource` that `Resource.process` strictly
resolves: `uri`, the `identifier` elements, the annotations' URIs and the
qualified dictionaries' keys and nested URIs, recursively.  Pass-through
fields (`context`, `type`, dates, language maps, `rank`) contribute
nothing. -/
def Resource.resolvedURIs : Resource → List String
  | .mk _ uri identifier _ _ _ _ creator contributor source publisher part_of
      annotations qualified_relations qualified_dates qualified_literals _ =>
    uri.toList ++ identifier.getD [] ++ jskosSetOptURIs creator ++
      jskosSetOptURIs contributor ++ jskosSetOptURIs source ++
      jskosSetOptURIs publisher ++ jskosSetOptURIs part_of ++
      annListOptURIs annotations ++ relDictOptURIs qualified_relations ++
      dateDictOptURIs qualified_dates ++ litDictOptURIs qualified_literals
termination_by structural r => r

/-- Resolved URIs of an optional JSKOS set. -/
def jskosSetOptURIs : Option (List (Option Resource)) → List String
  | none => []
  | some s => jskosElemsURIs s
termination_by structural o => o

/-- Resolved URIs of a JSKOS set; null placeholders contribute nothing. -/
def jskosElemsURIs : List (Option Resource) → List String
  | [] => []
  | none :: rest => jskosElemsURIs rest
  | some r :: rest => Resource.resolvedURIs r ++ jskosElemsURIs rest
termination_by structural l => l

/-- Resolved URIs of an optional annotation list. -/
def annListOptURIs : Option (List Annotation) → List String
  | none => []
  | some l => annListURIs l
termination_by structural o => o

/-- Resolved URIs of an annotation list. -/
def annListURIs : List Annotation → List String
  | [] => []
  | a :: rest => Annotation.resolvedURIs a ++ annListURIs rest
termination_by structural l => l

/-- The URIs an annotation resolves: its target's URIs, then its `id`. -/
def Annotation.resolvedURIs : Annotation → List String
  | .mk _ _ id target => annTargetURIs target ++ [id]
termination_by structural a => a

/-- The URIs a target resolves: a bare URI itself, the recursive URIs of
an entity target. -/
def annTargetURIs : AnnotationTarget → List String
  | .url u => [u]
  | .res r => Resource.resolvedURIs r
  | .ann a => Annotation.resolvedURIs a
  | .invalid => []
termination_by structural t => t

/-- Resolved URIs of a qualified relation: its `source` set and its
required `resource`. -/
def QualifiedRelation.resolvedURIs : QualifiedRelation → List String
  | .mk _ _ source _ resource =>
    jskosSetOptURIs source ++ Resource.resolvedURIs resource
termination_by structural q => q

/-- Resolved URIs of a qualified date: its `source` and `place` sets. -/
def QualifiedDate.resolvedURIs : QualifiedDate → List String
  | .mk _ _ source _ _ place => jskosSetOptURIs source ++ jskosSetOptURIs place
termination_by structural q => q

/-- Resolved URIs of a qualified literal: its `source` set, its `uri` and
its `type` list. -/
def QualifiedLiteral.resolvedURIs : QualifiedLiteral → List String
  | .mk _ _ source _ _ uri type =>
    jskosSetOptURIs source ++ uri.toList ++ type.getD []
termination_by structural q => q

/-- Resolved URIs of an optional `qualifiedRelations` dictionary. -/
def relDictOptURIs : Option (List (URI × QualifiedRelation)) → List String
  | none => []
  | some l => relEntriesURIs l
termination_by structural o => o

/-- Resolved URIs of `qualifiedRelations` entries: each key and the
nested URIs of each value. -/
def relEntriesURIs : List (URI × QualifiedRelation) → List String
  | [] => []
  | (k, v) :: rest => k :: (QualifiedRelation.resolvedURIs v ++ relEntriesURIs rest)
termination_by structural l => l

/-- Resolved URIs of an optional `qualifiedDates` dictionary. -/
def dateDictOptURIs : Option (List (URI × QualifiedDate)) → List String
  | none => []
  | some l => dateEntriesURIs l
termination_by structural o => o

/-- Resolved URIs of `qualifiedDates` entries. -/
def dateEntriesURIs : List (URI × QualifiedDate) → List String
  | [] => []
  | (k, v) :: rest => k :: (QualifiedDate.resolvedURIs v ++ dateEntriesURIs rest)
termination_by structural l => l

/-- Resolved URIs of an optional `qualifiedLiterals` dictionary. -/
def litDictOptURIs : Option (List (URI × QualifiedLiteral)) → List String
  | none => []
  | some l => litEntriesURIs l
termination_by structural o => o

/-- Resolved URIs of `qualifiedLiterals` entries. -/
def litEntriesURIs : List (URI × QualifiedLiteral) → List String
  | [] => []
  | (k, v) :: rest => k :: (QualifiedLiteral.resolvedURIs v ++ litEntriesURIs rest)
termination_by structural l => l

end

mutual

/-- A raw `Resource` tree is well formed when every annotation target in
it matches one of the three declared union variants — exactly what the
upstream structural validation guarantees before `process` runs. -/
def Resource.wellFormed : Resource → Bool
  | .mk _ _ _ _ _ _ _ creator contributor source publisher part_of annotations
      qualified_relations qualified_dates qualified_literals _ =>
    jskosSetOptWF creator && jskosSetOptWF contributor && jskosSetOptWF source &&
      jskosSetOptWF publisher && jskosSetOptWF part_of &&
      annListOptWF annotations && relDictOptWF qualified_relations &&
      dateDictOptWF qualified_dates && litDictOptWF qualified_literals
termination_by structural r => r

/-- Well-formedness of an optional JSKOS set. -/
def jskosSetOptWF : Option (List (Option Resource)) → Bool
  | none => true
  | some s => jskosElemsWF s
termination_by structural o => o

/-- Well-formedness of a JSKOS set's elements. -/
def jskosElemsWF : List (Option Resource) → Bool
  | [] => true
  | none :: rest => jskosElemsWF rest
  | some r :: rest => Resource.wellFormed r && jskosElemsWF rest
termination_by structural l => l

/-- Well-formedness of an optional annotation list. -/
def annListOptWF : Option (List Annotation) → Bool
  | none => true
  | some l => annListWF l
termination_by structural o => o

/-- Well-formedness of an annotation list. -/
def annListWF : List Annotation → Bool
  | [] => true
  | a :: rest => Annotation.wellFormed a && annListWF rest
termination_by structural l => l

/-- Well-formedness of an annotation: its target matches a declared
variant, recursively. -/
def Annotation.wellFormed : Annotation → Bool
  | .mk _ _ _ target => annTargetWF target
termination_by structural a => a

/-- Well-formedness of an annotation target: `invalid` is the one raw
shape outside the declared union. -/
def annTargetWF : AnnotationTarget → Bool
  | .url _ => true
  | .res r => Resource.wellFormed r
  | .ann a => Annotation.wellFormed a
  | .invalid => false
termination_by structural t => t

/-- Well-formedness of a qualified relation. -/
def QualifiedRelation.wellFormed : QualifiedRelation → Bool
  | .mk _ _ source _ resource => jskosSetOptWF source && Resource.wellFormed resource
termination_by structural q => q

/-- Well-formedness of a qualified date. -/
def QualifiedDate.wellFormed : QualifiedDate → Bool
  | .mk _ _ source _ _ place => jskosSetOptWF source && jskosSetOptWF place
termination_by structural q => q

/-- Well-formedness of a qualified literal. -/
def QualifiedLiteral.wellFormed : QualifiedLiteral → Bool
  | .mk _ _ source _ _ _ _ => jskosSetOptWF source
termination_by structural q => q

/-- Well-formedness of an optional `qualifiedRelations` dictionary. -/
def relDictOptWF : Option (List (URI × QualifiedRelation)) → Bool
  | none => true
  | some l => relEntriesWF l
termination_by structural o => o

/-- Well-formedness of `qualifiedRelations` entries. -/
def relEntriesWF : List (URI × QualifiedRelation) → Bool
  | [] => true
  | (_, v) :: rest => QualifiedRelation.wellFormed v && relEntriesWF rest
termination_by structural l => l

/-- Well-formedness of an optional `qualifiedDates` dictionary. -/
def dateDictOptWF : Option (List (URI × QualifiedDate)) → Bool
  | none => true
  | some l => dateEntriesWF l
termination_by structural o => o

/-- Well-formedness of `qualifiedDates` entries. -/
def dateEntriesWF : List (URI × QualifiedDate) → Bool
  | [] => true
  | (_, v) :: rest => QualifiedDate.wellFormed v && dateEntriesWF rest
termination_by structural l => l

/-- Well-formedness of an optional `qualifiedLiterals` dictionary. -/
def litDictOptWF : Option (List (URI × QualifiedLiteral)) → Bool
  | none => true
  | some l => litEntriesWF l
termination_by structural o => o

/-- Well-formedness of `qualifiedLiterals` entries. -/
def litEntriesWF : List (URI × QualifiedLiteral) → Bool
  | [] => true
  | (_, v) :: rest => QualifiedLiteral.wellFormed v && litEntriesWF rest
termination_by structural l => l

end


@[simp] theorem ok_bind (a : α) (f : α → Except ProcessError β) :
    (Except.ok a : Except ProcessError α) >>= f = f a := rfl

@[simp] theorem error_bind (e : ProcessError) (f : α → Except ProcessError β) :
    (Except.error e : Except ProcessError α) >>= f = .error e := rfl

@[simp] theorem pure_eq_ok (a : α) : (pure a : Except ProcessError α) = .ok a := rfl

@[simp] theorem map_ok (f : α → β) (a : α) :
    Except.map f (Except.ok a : Except ProcessError α) = .ok (f a) := rfl

@[simp] theorem map_error (f : α → β) (e : ProcessError) :
    Except.map f (Except.error e : Except ProcessError α) = .error e := rfl

/-- Strict resolution only ever fails with `UnresolvedURIError`, carrying
the offending URI. -/
theorem parse_uri_error_form (conv : Converter) (u : String) (e : ProcessError)
    (h : conv.parse_uri u = .error e) : e = .unresolvedURI u := by
  unfold Converter.parse_uri at h
  cases hb : bestRecord conv.records u with
  | some r => rw [hb] at h; simp at h
  | none =>
    rw [hb] at h
    injection h with h2
    exact h2.symm

theorem _parse_optional_url_err (conv : Converter) (o : Option URI) (e : ProcessError)
    (h : _parse_optional_url conv o = .error e) : ∃ u, e = .unresolvedURI u := by
  match o with
  | none => simp [_parse_optional_url] at h
  | some u =>
    simp only [_parse_optional_url] at h
    cases hp : conv.parse_uri u with
    | ok r => simp [hp] at h
    | error e2 =>
      simp [hp] at h
      exact ⟨u, h ▸ parse_uri_error_form conv u e2 hp⟩

theorem _parse_optional_url_ok (conv : Converter) (u : URI) (r : Option Reference)
    (h : _parse_optional_url conv (some u) = .ok r) :
    ∃ ref, conv.parse_uri u = .ok ref := by
  cases hp : conv.parse_uri u with
  | ok ref => exact ⟨ref, rfl⟩
  | error e => simp [_parse_optional_url, hp] at h

theorem _parse_urls_go_err (conv : Converter) (l : List URI) (e : ProcessError)
    (h : _parse_urls_go conv l = .error e) : ∃ u, e = .unresolvedURI u := by
  induction l generalizing e with
  | nil => simp [_parse_urls_go] at h
  | cons u rest ih =>
    simp only [_parse_urls_go] at h
    cases hp : conv.parse_uri u with
    | error e2 =>
      simp [hp] at h
      exact ⟨u, h ▸ parse_uri_error_form conv u e2 hp⟩
    | ok r =>
      simp [hp] at h
      cases ht : _parse_urls_go conv rest with
      | ok tail => simp [ht] at h
      | error e2 =>
        simp [ht] at h
        exact h ▸ ih e2 ht

theorem _parse_urls_go_ok (conv : Converter) (l : List URI) (out : List Reference)
    (h : _parse_urls_go conv l = .ok out) :
    ∀ u ∈ l, ∃ ref, conv.parse_uri u = .ok ref := by
  induction l generalizing out with
  | nil => intro u hu; cases hu
  | cons v rest ih =>
    intro u hu
    simp only [_parse_urls_go] at h
    cases hp : conv.parse_uri v with
    | error e2 => simp [hp] at h
    | ok r =>
      simp [hp] at h
      cases ht : _parse_urls_go conv rest with
      | error e2 => simp [ht] at h
      | ok tail =>
        cases List.mem_cons.mp hu with
        | inl heq => exact heq ▸ ⟨r, hp⟩
        | inr hmem => exact ih tail ht u hmem

theorem _parse_optional_urls_err (conv : Converter) (o : Option (List URI))
    (e : ProcessError) (h : _parse_optional_urls conv o = .error e) :
    ∃ u, e = .unresolvedURI u := by
  match o with
  | none => simp [_parse_optional_urls] at h
  | some l =>
    simp only [_parse_optional_urls] at h
    cases hg : _parse_urls_go conv l with
    | ok out => simp [hg] at h
    | error e2 =>
      simp [hg] at h
      exact h ▸ _parse_urls_go_err conv l e2 hg

theorem _parse_optional_urls_ok (conv : Converter) (l : List URI)
    (out : Option (List Reference)) (h : _parse_optional_urls conv (some l) = .ok out) :
    ∀ u ∈ l, ∃ ref, conv.parse_uri u = .ok ref := by
  simp only [_parse_optional_urls] at h
  cases hg : _parse_urls_go conv l with
  | ok o2 => exact _parse_urls_go_ok conv l o2 hg
  | error e => simp [hg] at h


mutual

/-- Under well-formedness, a failing `Resource.process` fails with an
unresolved-URI error. -/
theorem resource_process_err (conv : Converter) (r : Resource) (e : ProcessError)
    (hwf : Resource.wellFormed r = true) (h : Resource.process conv r = .error e) :
    ∃ u, e = .unresolvedURI u := by
  match r with
  | .mk context uri identifier type created issued modified creator contributor
      source publisher part_of annotations qualified_relations qualified_dates
      qualified_literals rank =>
    simp only [Resource.wellFormed, Bool.and_eq_true] at hwf
    obtain ⟨⟨⟨⟨⟨⟨⟨⟨hw1, hw2⟩, hw3⟩, hw4⟩, hw5⟩, hw6⟩, hw7⟩, hw8⟩, hw9⟩ := hwf
    simp only [Resource.process] at h
    cases h1 : _parse_optional_url conv uri with
    | error e1 =>
      rw [h1] at h; simp only [error_bind, Except.error.injEq] at h
      exact h ▸ _parse_optional_url_err conv uri e1 h1
    | ok reference =>
    rw [h1] at h; simp only [ok_bind] at h
    cases h2 : _parse_optional_urls conv identifier with
    | error e1 =>
      rw [h2] at h; simp only [error_bind, Except.error.injEq] at h
      exact h ▸ _parse_optional_urls_err conv identifier e1 h2
    | ok identifier2 =>
    rw [h2] at h; simp only [ok_bind] at h
    cases h3 : _process_jskos_set conv creator with
    | error e1 =>
      rw [h3] at h; simp only [error_bind, Except.error.injEq] at h
      exact h ▸ jskos_set_opt_err conv creator e1 hw1 h3
    | ok creator2 =>
    rw [h3] at h; simp only [ok_bind] at h
    cases h4 : _process_jskos_set conv contributor with
    | error e1 =>
      rw [h4] at h; simp only [error_bind, Except.error.injEq] at h
      exact h ▸ jskos_set_opt_err conv contributor e1 hw2 h4
    | ok contributor2 =>
    rw [h4] at h; simp only [ok_bind] at h
    cases h5 : _process_jskos_set conv source with
    | error e1 =>
      rw [h5] at h; simp only [error_bind, Except.error.injEq] at h
      exact h ▸ jskos_set_opt_err conv source e1 hw3 h5
    | ok source2 =>
    rw [h5] at h; simp only [ok_bind] at h
    cases h6 : _process_jskos_set conv publisher with
    | error e1 =>
      rw [h6] at h; simp only [error_bind, Except.error.injEq] at h
      exact h ▸ jskos_set_opt_err conv publisher e1 hw4 h6
    | ok publisher2 =>
    rw [h6] at h; simp only [ok_bind] at h
    cases h7 : _process_jskos_set conv part_of with
    | error e1 =>
      rw [h7] at h; simp only [error_bind, Except.error.injEq] at h
      exact h ▸ jskos_set_opt_err conv part_of e1 hw5 h7
    | ok part_of2 =>
    rw [h7] at h; simp only [ok_bind] at h
    cases h8 : process_many_ann conv annotations with
    | error e1 =>
      rw [h8] at h; simp only [error_bind, Except.error.injEq] at h
      exact h ▸ many_ann_err conv annotations e1 hw6 h8
    | ok annotations2 =>
    rw [h8] at h; simp only [ok_bind] at h
    cases h9 : _process_dict_relations conv qualified_relations with
    | error e1 =>
      rw [h9] at h; simp only [error_bind, Except.error.injEq] at h
      exact h ▸ rel_dict_err conv qualified_relations e1 hw7 h9
    | ok qualified_relations2 =>
    rw [h9] at h; simp only [ok_bind] at h
    cases h10 : _process_dict_dates conv qualified_dates with
    | error e1 =>
      rw [h10] at h; simp only [error_bind, Except.error.injEq] at h
      exact h ▸ date_dict_err conv qualified_dates e1 hw8 h10
    | ok qualified_dates2 =>
    rw [h10] at h; simp only [ok_bind] at h
    cases h11 : _process_dict_literals conv qualified_literals with
    | error e1 =>
      rw [h11] at h; simp only [error_bind, Except.error.injEq] at h
      exact h ▸ lit_dict_err conv qualified_literals e1 hw9 h11
    | ok qualified_literals2 =>
    rw [h11] at h; simp only [ok_bind, pure_eq_ok] at h
    exact Except.noConfusion h

/-- Under well-formedness, a failing `_process_jskos_set` fails with an
unresolved-URI error. -/
theorem jskos_set_opt_err (conv : Converter) (o : Option (List (Option Resource)))
    (e : ProcessError) (hwf : jskosSetOptWF o = true)
    (h : _process_jskos_set conv o = .error e) : ∃ u, e = .unresolvedURI u := by
  match o with
  | none => simp [_process_jskos_set] at h
  | some s =>
    simp only [jskosSetOptWF] at hwf
    simp only [_process_jskos_set] at h
    cases hs : _process_jskos_elems conv s with
    | ok out => rw [hs] at h; simp at h
    | error e1 =>
      rw [hs] at h; simp only [map_error, Except.error.injEq] at h
      exact h ▸ jskos_elems_err conv s e1 hwf hs

/-- Under well-formedness, failing JSKOS-set element processing fails with
an unresolved-URI error. -/
theorem jskos_elems_err (conv : Converter) (l : List (Option Resource))
    (e : ProcessError) (hwf : jskosElemsWF l = true)
    (h : _process_jskos_elems conv l = .error e) : ∃ u, e = .unresolvedURI u := by
  match l with
  | [] => simp [_process_jskos_elems] at h
  | none :: rest =>
    simp only [jskosElemsWF] at hwf
    simp only [_process_jskos_elems] at h
    cases ht : _process_jskos_elems conv rest with
    | ok tail => rw [ht] at h; simp at h
    | error e1 =>
      rw [ht] at h; simp only [error_bind, Except.error.injEq] at h
      exact h ▸ jskos_elems_err conv rest e1 hwf ht
  | some r :: rest =>
    simp only [jskosElemsWF, Bool.and_eq_true] at hwf
    obtain ⟨hwr, hwrest⟩ := hwf
    simp only [_process_jskos_elems] at h
    cases hr : Resource.process conv r with
    | error e1 =>
      rw [hr] at h; simp only [error_bind, Except.error.injEq] at h
      exact h ▸ resource_process_err conv r e1 hwr hr
    | ok pr =>
      rw [hr] at h; simp only [ok_bind] at h
      cases ht : _process_jskos_elems conv rest with
      | ok tail => rw [ht] at h; simp at h
      | error e1 =>
        rw [ht] at h; simp only [error_bind, Except.error.injEq] at h
        exact h ▸ jskos_elems_err conv rest e1 hwrest ht

/-- Under well-formedness, a failing `process_many` over annotations fails
with an unresolved-URI error. -/
theorem many_ann_err (conv : Converter) (o : Option (List Annotation))
    (e : ProcessError) (hwf : annListOptWF o = true)
    (h : process_many_ann conv o = .error e) : ∃ u, e = .unresolvedURI u := by
  match o with
  | none => simp [process_many_ann] at h
  | some l =>
    simp only [annListOptWF] at hwf
    simp only [process_many_ann] at h
    cases hl : process_ann_list conv l with
    | ok out => rw [hl] at h; simp at h
    | error e1 =>
      rw [hl] at h; simp only [map_error, Except.error.injEq] at h
      exact h ▸ ann_list_err conv l e1 hwf hl

/-- Under well-formedness, failing annotation-list processing fails with
an unresolved-URI error. -/
theorem ann_list_err (conv : Converter) (l : List Annotation) (e : ProcessError)
    (hwf : annListWF l = true) (h : process_ann_list conv l = .error e) :
    ∃ u, e = .unresolvedURI u := by
  match l with
  | [] => simp [process_ann_list] at h
  | a :: rest =>
    simp only [annListWF, Bool.and_eq_true] at hwf
    obtain ⟨hwa, hwrest⟩ := hwf
    simp only [process_ann_list] at h
    cases ha : Annotation.process conv a with
    | error e1 =>
      rw [ha] at h; simp only [error_bind, Except.error.injEq] at h
      exact h ▸ annotation_process_err conv a e1 hwa ha
    | ok pa =>
      rw [ha] at h; simp only [ok_bind] at h
      cases ht : process_ann_list conv rest with
      | ok tail => rw [ht] at h; simp at h
      | error e1 =>
        rw [ht] at h; simp only [error_bind, Except.error.injEq] at h
        exact h ▸ ann_list_err conv rest e1 hwrest ht

/-- Under well-formedness, a failing `Annotation.process` fails with an
unresolved-URI error. -/
theorem annotation_process_err (conv : Converter) (a : Annotation) (e : ProcessError)
    (hwf : Annotation.wellFormed a = true) (h : Annotation.process conv a = .error e) :
    ∃ u, e = .unresolvedURI u := by
  match a with
  | .mk context type id target =>
    simp only [ Annotation.wellFormed] at hwf
    simp only [ Annotation.process] at h
    cases h1 : processAnnTarget conv target with
    | error e1 =>
      rw [h1] at h; simp only [error_bind, Except.error.injEq] at h
      exact h ▸ ann_target_err conv target e1 hwf h1
    | ok target2 =>
      rw [h1] at h; simp only [ok_bind] at h
      cases h2 : conv.parse_uri id with
      | error e1 =>
        rw [h2] at h; simp only [error_bind, Except.error.injEq] at h
        exact ⟨id, h ▸ parse_uri_error_form conv id e1 h2⟩
      | ok reference =>
        rw [h2] at h; simp only [ok_bind, pure_eq_ok] at h
        exact Except.noConfusion h

/-- Under well-formedness, failing target dispatch fails with an
unresolved-URI error. -/
theorem ann_target_err (conv : Converter) (t : AnnotationTarget) (e : ProcessError)
    (hwf : annTargetWF t = true) (h : processAnnTarget conv t = .error e) :
    ∃ u, e = .unresolvedURI u := by
  match t with
  | .url u =>
    simp only [processAnnTarget] at h
    cases hp : conv.parse_uri u with
    | ok r => rw [hp] at h; simp at h
    | error e1 =>
      rw [hp] at h; simp only [map_error, Except.error.injEq] at h
      exact ⟨u, h ▸ parse_uri_error_form conv u e1 hp⟩
  | .res r =>
    simp only [annTargetWF] at hwf
    simp only [processAnnTarget] at h
    cases hr : Resource.process conv r with
    | ok pr => rw [hr] at h; simp at h
    | error e1 =>
      rw [hr] at h; simp only [map_error, Except.error.injEq] at h
      exact h ▸ resource_process_err conv r e1 hwf hr
  | .ann a =>
    simp only [annTargetWF] at hwf
    simp only [processAnnTarget] at h
    cases ha : Annotation.process conv a with
    | ok pa => rw [ha] at h; simp at h
    | error e1 =>
      rw [ha] at h; simp only [map_error, Except.error.injEq] at h
      exact h ▸ annotation_process_err conv a e1 hwf ha
  | .invalid => simp [annTargetWF] at hwf

/-- Under well-formedness, a failing `QualifiedRelation.process` fails
with an unresolved-URI error. -/
theorem qual_rel_err (conv : Converter) (q : QualifiedRelation) (e : ProcessError)
    (hwf : QualifiedRelation.wellFormed q = true)
    (h : QualifiedRelation.process conv q = .error e) : ∃ u, e = .unresolvedURI u := by
  match q with
  | .mk start_date end_date source rank resource =>
    simp only [QualifiedRelation.wellFormed, Bool.and_eq_true] at hwf
    obtain ⟨hws, hwr⟩ := hwf
    simp only [QualifiedRelation.process] at h
    cases h1 : _process_jskos_set conv source with
    | error e1 =>
      rw [h1] at h; simp only [error_bind, Except.error.injEq] at h
      exact h ▸ jskos_set_opt_err conv source e1 hws h1
    | ok source2 =>
      rw [h1] at h; simp only [ok_bind] at h
      cases h2 : Resource.process conv resource with
      | error e1 =>
        rw [h2] at h; simp only [error_bind, Except.error.injEq] at h
        exact h ▸ resource_process_err conv resource e1 hwr h2
      | ok resource2 =>
        rw [h2] at h; simp only [ok_bind, pure_eq_ok] at h
        exact Except.noConfusion h

/-- Under well-formedness, a failing `QualifiedDate.process` fails with an
unresolved-URI error. -/
theorem qual_date_err (conv : Converter) (q : QualifiedDate) (e : ProcessError)
    (hwf : QualifiedDate.wellFormed q = true)
    (h : QualifiedDate.process conv q = .error e) : ∃ u, e = .unresolvedURI u := by
  match q with
  | .mk start_date end_date source rank date place =>
    simp only [QualifiedDate.wellFormed, Bool.and_eq_true] at hwf
    obtain ⟨hws, hwp⟩ := hwf
    simp only [QualifiedDate.process] at h
    cases h1 : _process_jskos_set conv source with
    | error e1 =>
      rw [h1] at h; simp only [error_bind, Except.error.injEq] at h
      exact h ▸ jskos_set_opt_err conv source e1 hws h1
    | ok source2 =>
      rw [h1] at h; simp only [ok_bind] at h
      cases h2 : _process_jskos_set conv place with
      | error e1 =>
        rw [h2] at h; simp only [error_bind, Except.error.injEq] at h
        exact h ▸ jskos_set_opt_err conv place e1 hwp h2
      | ok place2 =>
        rw [h2] at h; simp only [ok_bind, pure_eq_ok] at h
        exact Except.noConfusion h

/-- Under well-formedness, a failing `QualifiedLiteral.process` fails with
an unresolved-URI error. -/
theorem qual_lit_err (conv : Converter) (q : QualifiedLiteral) (e : ProcessError)
    (hwf : QualifiedLiteral.wellFormed q = true)
    (h : QualifiedLiteral.process conv q = .error e) : ∃ u, e = .unresolvedURI u := by
  match q with
  | .mk start_date end_date source rank literal uri type =>
    simp only [QualifiedLiteral.wellFormed] at hwf
    simp only [QualifiedLiteral.process] at h
    cases h1 : _process_jskos_set conv source with
    | error e1 =>
      rw [h1] at h; simp only [error_bind, Except.error.injEq] at h
      exact h ▸ jskos_set_opt_err conv source e1 hwf h1
    | ok source2 =>
      rw [h1] at h; simp only [ok_bind] at h
      cases h2 : _parse_optional_url conv uri with
      | error e1 =>
        rw [h2] at h; simp only [error_bind, Except.error.injEq] at h
        exact h ▸ _parse_optional_url_err conv uri e1 h2
      | ok reference =>
        rw [h2] at h; simp only [ok_bind] at h
        cases h3 : _parse_optional_urls conv type with
        | error e1 =>
          rw [h3] at h; simp only [error_bind, Except.error.injEq] at h
          exact h ▸ _parse_optional_urls_err conv type e1 h3
        | ok type2 =>
          rw [h3] at h; simp only [ok_bind, pure_eq_ok] at h
          exact Except.noConfusion h

/-- Under well-formedness, a failing `_process_dict` over
`qualifiedRelations` fails with an unresolved-URI error. -/
theorem rel_dict_err (conv : Converter) (o : Option (List (URI × QualifiedRelation)))
    (e : ProcessError) (hwf : relDictOptWF o = true)
    (h : _process_dict_relations conv o = .error e) : ∃ u, e = .unresolvedURI u := by
  match o with
  | none => simp [_process_dict_relations] at h
  | some l =>
    simp only [relDictOptWF] at hwf
    simp only [_process_dict_relations] at h
    cases hl : _process_rel_entries conv l with
    | ok out => rw [hl] at h; simp at h
    | error e1 =>
      rw [hl] at h; simp only [map_error, Except.error.injEq] at h
      exact h ▸ rel_entries_err conv l e1 hwf hl

/-- Under well-formedness, failing `qualifiedRelations` entry processing
fails with an unresolved-URI error. -/
theorem rel_entries_err (conv : Converter) (l : List (URI × QualifiedRelation))
    (e : ProcessError) (hwf : relEntriesWF l = true)
    (h : _process_rel_entries conv l = .error e) : ∃ u, e = .unresolvedURI u := by
  match l with
  | [] => simp [_process_rel_entries] at h
  | (k, v) :: rest =>
    simp only [relEntriesWF, Bool.and_eq_true] at hwf
    obtain ⟨hwv, hwrest⟩ := hwf
    simp only [_process_rel_entries] at h
    cases h1 : conv.parse_uri k with
    | error e1 =>
      rw [h1] at h; simp only [error_bind, Except.error.injEq] at h
      exact ⟨k, h ▸ parse_uri_error_form conv k e1 h1⟩
    | ok rk =>
      rw [h1] at h; simp only [ok_bind] at h
      cases h2 : QualifiedRelation.process conv v with
      | error e1 =>
        rw [h2] at h; simp only [error_bind, Except.error.injEq] at h
        exact h ▸ qual_rel_err conv v e1 hwv h2
      | ok pv =>
        rw [h2] at h; simp only [ok_bind] at h
        cases h3 : _process_rel_entries conv rest with
        | ok tail => rw [h3] at h; simp at h
        | error e1 =>
          rw [h3] at h; simp only [error_bind, Except.error.injEq] at h
          exact h ▸ rel_entries_err conv rest e1 hwrest h3

/-- Under well-formedness, a failing `_process_dict` over
`qualifiedDates` fails with an unresolved-URI error. -/
theorem date_dict_err (conv : Converter) (o : Option (List (URI × QualifiedDate)))
    (e : ProcessError) (hwf : dateDictOptWF o = true)
    (h : _process_dict_dates conv o = .error e) : ∃ u, e = .unresolvedURI u := by
  match o with
  | none => simp [_process_dict_dates] at h
  | some l =>
    simp only [dateDictOptWF] at hwf
    simp only [_process_dict_dates] at h
    cases hl : _process_date_entries conv l with
    | ok out => rw [hl] at h; simp at h
    | error e1 =>
      rw [hl] at h; simp only [map_error, Except.error.injEq] at h
      exact h ▸ date_entries_err conv l e1 hwf hl

/-- Under well-formedness, failing `qualifiedDates` entry processing fails
with an unresolved-URI error. -/
theorem date_entries_err (conv : Converter) (l : List (URI × QualifiedDate))
    (e : ProcessError) (hwf : dateEntriesWF l = true)
    (h : _process_date_entries conv l = .error e) : ∃ u, e = .unresolvedURI u := by
  match l with
  | [] => simp [_process_date_entries] at h
  | (k, v) :: rest =>
    simp only [dateEntriesWF, Bool.and_eq_true] at hwf
    obtain ⟨hwv, hwrest⟩ := hwf
    simp only [_process_date_entries] at h
    cases h1 : conv.parse_uri k with
    | error e1 =>
      rw [h1] at h; simp only [error_bind, Except.error.injEq] at h
      exact ⟨k, h ▸ parse_uri_error_form conv k e1 h1⟩
    | ok rk =>
      rw [h1] at h; simp only [ok_bind] at h
      cases h2 : QualifiedDate.process conv v with
      | error e1 =>
        rw [h2] at h; simp only [error_bind, Except.error.injEq] at h
        exact h ▸ qual_date_err conv v e1 hwv h2
      | ok pv =>
        rw [h2] at h; simp only [ok_bind] at h
        cases h3 : _process_date_entries conv rest with
        | ok tail => rw [h3] at h; simp at h
        | error e1 =>
          rw [h3] at h; simp only [error_bind, Except.error.injEq] at h
          exact h ▸ date_entries_err conv rest e1 hwrest h3

/-- Under well-formedness, a failing `_process_dict` over
`qualifiedLiterals` fails with an unresolved-URI error. -/
theorem lit_dict_err (conv : Converter) (o : Option (List (URI × QualifiedLiteral)))
    (e : ProcessError) (hwf : litDictOptWF o = true)
    (h : _process_dict_literals conv o = .error e) : ∃ u, e = .unresolvedURI u := by
  match o with
  | none => simp [_process_dict_literals] at h
  | some l =>
    simp only [litDictOptWF] at hwf
    simp only [_process_dict_literals] at h
    cases hl : _process_lit_entries conv l with
    | ok out => rw [hl] at h; simp at h
    | error e1 =>
      rw [hl] at h; simp only [map_error, Except.error.injEq] at h
      exact h ▸ lit_entries_err conv l e1 hwf hl

/-- Under well-formedness, failing `qualifiedLiterals` entry processing
fails with an unresolved-URI error. -/
theorem lit_entries_err (conv : Converter) (l : List (URI × QualifiedLiteral))
    (e : ProcessError) (hwf : litEntriesWF l = true)
    (h : _process_lit_entries conv l = .error e) : ∃ u, e = .unresolvedURI u := by
  match l with
  | [] => simp [_process_lit_entries] at h
  | (k, v) :: rest =>
    simp only [litEntriesWF, Bool.and_eq_true] at hwf
    obtain ⟨hwv, hwrest⟩ := hwf
    simp only [_process_lit_entries] at h
    cases h1 : conv.parse_uri k with
    | error e1 =>
      rw [h1] at h; simp only [error_bind, Except.error.injEq] at h
      exact ⟨k, h ▸ parse_uri_error_form conv k e1 h1⟩
    | ok rk =>
      rw [h1] at h; simp only [ok_bind] at h
      cases h2 : QualifiedLiteral.process conv v with
      | error e1 =>
        rw [h2] at h; simp only [error_bind, Except.error.injEq] at h
        exact h ▸ qual_lit_err conv v e1 hwv h2
      | ok pv =>
        rw [h2] at h; simp only [ok_bind] at h
        cases h3 : _process_lit_entries conv rest with
        | ok tail => rw [h3] at h; simp at h
        | error e1 =>
          rw [h3] at h; simp only [error_bind, Except.error.injEq] at h
          exact h ▸ lit_entries_err conv rest e1 hwrest h3

end


theorem _parse_optional_url_ok_mem (conv : Converter) (o : Option URI)
    (out : Option Reference) (h : _parse_optional_url conv o = .ok out) :
    ∀ u ∈ o.toList, ∃ ref, conv.parse_uri u = .ok ref := by
  match o with
  | none => intro u hu; cases hu
  | some v =>
    intro u hu
    simp only [Option.toList_some, List.mem_singleton] at hu
    exact hu ▸ _parse_optional_url_ok conv v out h

theorem _parse_optional_urls_ok_mem (conv : Converter) (o : Option (List URI))
    (out : Option (List Reference)) (h : _parse_optional_urls conv o = .ok out) :
    ∀ u ∈ o.getD [], ∃ ref, conv.parse_uri u = .ok ref := by
  match o with
  | none => intro u hu; cases hu
  | some l =>
    simp only [Option.getD_some]
    exact _parse_optional_urls_ok conv l out h

mutual

/-- A successful `Resource.process` strictly resolved every URI in a
resolved position. -/
theorem resource_process_ok (conv : Converter) (r : Resource) (y : ProcessedResource)
    (h : Resource.process conv r = .ok y) :
    ∀ u ∈ Resource.resolvedURIs r, ∃ ref, conv.parse_uri u = .ok ref := by
  match r with
  | .mk context uri identifier type created issued modified creator contributor
      source publisher part_of annotations qualified_relations qualified_dates
      qualified_literals rank =>
    simp only [Resource.process] at h
    cases h1 : _parse_optional_url conv uri with
    | error e1 => rw [h1] at h; simp only [error_bind] at h; exact Except.noConfusion h
    | ok reference =>
    rw [h1] at h; simp only [ok_bind] at h
    cases h2 : _parse_optional_urls conv identifier with
    | error e1 => rw [h2] at h; simp only [error_bind] at h; exact Except.noConfusion h
    | ok identifier2 =>
    rw [h2] at h; simp only [ok_bind] at h
    cases h3 : _process_jskos_set conv creator with
    | error e1 => rw [h3] at h; simp only [error_bind] at h; exact Except.noConfusion h
    | ok creator2 =>
    rw [h3] at h; simp only [ok_bind] at h
    cases h4 : _process_jskos_set conv contributor with
    | error e1 => rw [h4] at h; simp only [error_bind] at h; exact Except.noConfusion h
    | ok contributor2 =>
    rw [h4] at h; simp only [ok_bind] at h
    cases h5 : _process_jskos_set conv source with
    | error e1 => rw [h5] at h; simp only [error_bind] at h; exact Except.noConfusion h
    | ok source2 =>
    rw [h5] at h; simp only [ok_bind] at h
    cases h6 : _process_jskos_set conv publisher with
    | error e1 => rw [h6] at h; simp only [error_bind] at h; exact Except.noConfusion h
    | ok publisher2 =>
    rw [h6] at h; simp only [ok_bind] at h
    cases h7 : _process_jskos_set conv part_of with
    | error e1 => rw [h7] at h; simp only [error_bind] at h; exact Except.noConfusion h
    | ok part_of2 =>
    rw [h7] at h; simp only [ok_bind] at h
    cases h8 : process_many_ann conv annotations with
    | error e1 => rw [h8] at h; simp only [error_bind] at h; exact Except.noConfusion h
    | ok annotations2 =>
    rw [h8] at h; simp only [ok_bind] at h
    cases h9 : _process_dict_relations conv qualified_relations with
    | error e1 => rw [h9] at h; simp only [error_bind] at h; exact Except.noConfusion h
    | ok qualified_relations2 =>
    rw [h9] at h; simp only [ok_bind] at h
    cases h10 : _process_dict_dates conv qualified_dates with
    | error e1 => rw [h10] at h; simp only [error_bind] at h; exact Except.noConfusion h
    | ok qualified_dates2 =>
    rw [h10] at h; simp only [ok_bind] at h
    cases h11 : _process_dict_literals conv qualified_literals with
    | error e1 => rw [h11] at h; simp only [error_bind] at h; exact Except.noConfusion h
    | ok qualified_literals2 =>
    intro u hu
    simp only [Resource.resolvedURIs] at hu
    rcases List.mem_append.mp hu with hu | hql
    rcases List.mem_append.mp hu with hu | hqd
    rcases List.mem_append.mp hu with hu | hqr
    rcases List.mem_append.mp hu with hu | hann
    rcases List.mem_append.mp hu with hu | hp5
    rcases List.mem_append.mp hu with hu | hp4
    rcases List.mem_append.mp hu with hu | hp3
    rcases List.mem_append.mp hu with hu | hp2
    rcases List.mem_append.mp hu with hu | hp1
    rcases List.mem_append.mp hu with huri | hident
    · exact _parse_optional_url_ok_mem conv uri reference h1 u huri
    · exact _parse_optional_urls_ok_mem conv identifier identifier2 h2 u hident
    · exact jskos_set_opt_ok conv creator creator2 h3 u hp1
    · exact jskos_set_opt_ok conv contributor contributor2 h4 u hp2
    · exact jskos_set_opt_ok conv source source2 h5 u hp3
    · exact jskos_set_opt_ok conv publisher publisher2 h6 u hp4
    · exact jskos_set_opt_ok conv part_of part_of2 h7 u hp5
    · exact many_ann_ok conv annotations annotations2 h8 u hann
    · exact rel_dict_ok conv qualified_relations qualified_relations2 h9 u hqr
    · exact date_dict_ok conv qualified_dates qualified_dates2 h10 u hqd
    · exact lit_dict_ok conv qualified_literals qualified_literals2 h11 u hql

/-- A successful `_process_jskos_set` strictly resolved every URI in the
set. -/
theorem jskos_set_opt_ok (conv : Converter) (o : Option (List (Option Resource)))
    (out : Option (List (Option ProcessedResource)))
    (h : _process_jskos_set conv o = .ok out) :
    ∀ u ∈ jskosSetOptURIs o, ∃ ref, conv.parse_uri u = .ok ref := by
  match o with
  | none => intro u hu; cases hu
  | some s =>
    simp only [_process_jskos_set] at h
    cases hs : _process_jskos_elems conv s with
    | error e1 => rw [hs] at h; simp only [map_error] at h; exact Except.noConfusion h
    | ok out2 =>
      simp only [jskosSetOptURIs]
      exact jskos_elems_ok conv s out2 hs

/-- Successful JSKOS-set element processing strictly resolved every URI of
the elements. -/
theorem jskos_elems_ok (conv : Converter) (l : List (Option Resource))
    (out : List (Option ProcessedResource)) (h : _process_jskos_elems conv l = .ok out) :
    ∀ u ∈ jskosElemsURIs l, ∃ ref, conv.parse_uri u = .ok ref := by
  match l with
  | [] => intro u hu; cases hu
  | none :: rest =>
    simp only [_process_jskos_elems] at h
    cases ht : _process_jskos_elems conv rest with
    | error e1 => rw [ht] at h; simp only [error_bind] at h; exact Except.noConfusion h
    | ok tail =>
      simp only [jskosElemsURIs]
      exact jskos_elems_ok conv rest tail ht
  | some r :: rest =>
    simp only [_process_jskos_elems] at h
    cases hr : Resource.process conv r with
    | error e1 => rw [hr] at h; simp only [error_bind] at h; exact Except.noConfusion h
    | ok pr =>
      rw [hr] at h; simp only [ok_bind] at h
      cases ht : _process_jskos_elems conv rest with
      | error e1 => rw [ht] at h; simp only [error_bind] at h; exact Except.noConfusion h
      | ok tail =>
        intro u hu
        simp only [jskosElemsURIs] at hu
        rcases List.mem_append.mp hu with hr2 | ht2
        · exact resource_process_ok conv r pr hr u hr2
        · exact jskos_elems_ok conv rest tail ht u ht2

/-- A successful `process_many` over annotations strictly resolved every
URI of the annotations. -/
theorem many_ann_ok (conv : Converter) (o : Option (List Annotation))
    (out : Option (List ProcessedAnnotation)) (h : process_many_ann conv o = .ok out) :
    ∀ u ∈ annListOptURIs o, ∃ ref, conv.parse_uri u = .ok ref := by
  match o with
  | none => intro u hu; cases hu
  | some l =>
    simp only [process_many_ann] at h
    cases hl : process_ann_list conv l with
    | error e1 => rw [hl] at h; simp only [map_error] at h; exact Except.noConfusion h
    | ok out2 =>
      simp only [annListOptURIs]
      exact ann_list_ok conv l out2 hl

/-- Successful annotation-list processing strictly resolved every URI of
the annotations. -/
theorem ann_list_ok (conv : Converter) (l : List Annotation)
    (out : List ProcessedAnnotation) (h : process_ann_list conv l = .ok out) :
    ∀ u ∈ annListURIs l, ∃ ref, conv.parse_uri u = .ok ref := by
  match l with
  | [] => intro u hu; cases hu
  | a :: rest =>
    simp only [process_ann_list] at h
    cases ha : Annotation.process conv a with
    | error e1 => rw [ha] at h; simp only [error_bind] at h; exact Except.noConfusion h
    | ok pa =>
      rw [ha] at h; simp only [ok_bind] at h
      cases ht : process_ann_list conv rest with
      | error e1 => rw [ht] at h; simp only [error_bind] at h; exact Except.noConfusion h
      | ok tail =>
        intro u hu
        simp only [annListURIs] at hu
        rcases List.mem_append.mp hu with ha2 | ht2
        · exact annotation_process_ok conv a pa ha u ha2
        · exact ann_list_ok conv rest tail ht u ht2

/-- A successful `Annotation.process` strictly resolved the target's URIs
and the annotation's `id`. -/
theorem annotation_process_ok (conv : Converter) (a : Annotation)
    (y : ProcessedAnnotation) (h : Annotation.process conv a = .ok y) :
    ∀ u ∈ Annotation.resolvedURIs a, ∃ ref, conv.parse_uri u = .ok ref := by
  match a with
  | .mk context type id target =>
    simp only [ Annotation.process] at h
    cases h1 : processAnnTarget conv target with
    | error e1 => rw [h1] at h; simp only [error_bind] at h; exact Except.noConfusion h
    | ok target2 =>
      rw [h1] at h; simp only [ok_bind] at h
      cases h2 : conv.parse_uri id with
      | error e1 => rw [h2] at h; simp only [error_bind] at h; exact Except.noConfusion h
      | ok reference =>
        intro u hu
        simp only [ Annotation.resolvedURIs] at hu
        rcases List.mem_append.mp hu with ht2 | hid
        · exact ann_target_ok conv target target2 h1 u ht2
        · rw [List.mem_singleton.mp hid]
          exact ⟨reference, h2⟩

/-- Successful target dispatch strictly resolved the target's URIs. -/
theorem ann_target_ok (conv : Converter) (t : AnnotationTarget)
    (y : ProcessedAnnotationTarget) (h : processAnnTarget conv t = .ok y) :
    ∀ u ∈ annTargetURIs t, ∃ ref, conv.parse_uri u = .ok ref := by
  match t with
  | .url v =>
    simp only [processAnnTarget] at h
    cases hp : conv.parse_uri v with
    | error e1 => rw [hp] at h; simp only [map_error] at h; exact Except.noConfusion h
    | ok r =>
      intro u hu
      simp only [annTargetURIs, List.mem_singleton] at hu
      exact hu ▸ ⟨r, hp⟩
  | .res r =>
    simp only [processAnnTarget] at h
    cases hr : Resource.process conv r with
    | error e1 => rw [hr] at h; simp only [map_error] at h; exact Except.noConfusion h
    | ok pr =>
      simp only [annTargetURIs]
      exact resource_process_ok conv r pr hr
  | .ann a =>
    simp only [processAnnTarget] at h
    cases ha : Annotation.process conv a with
    | error e1 => rw [ha] at h; simp only [map_error] at h; exact Except.noConfusion h
    | ok pa =>
      simp only [annTargetURIs]
      exact annotation_process_ok conv a pa ha
  | .invalid => intro u hu; cases hu

/-- A successful `QualifiedRelation.process` strictly resolved all nested
URIs. -/
theorem qual_rel_ok (conv : Converter) (q : QualifiedRelation)
    (y : ProcessedQualifiedRelation) (h : QualifiedRelation.process conv q = .ok y) :
    ∀ u ∈ QualifiedRelation.resolvedURIs q, ∃ ref, conv.parse_uri u = .ok ref := by
  match q with
  | .mk start_date end_date source rank resource =>
    simp only [QualifiedRelation.process] at h
    cases h1 : _process_jskos_set conv source with
    | error e1 => rw [h1] at h; simp only [error_bind] at h; exact Except.noConfusion h
    | ok source2 =>
      rw [h1] at h; simp only [ok_bind] at h
      cases h2 : Resource.process conv resource with
      | error e1 => rw [h2] at h; simp only [error_bind] at h; exact Except.noConfusion h
      | ok resource2 =>
        intro u hu
        simp only [QualifiedRelation.resolvedURIs] at hu
        rcases List.mem_append.mp hu with hs2 | hr2
        · exact jskos_set_opt_ok conv source source2 h1 u hs2
        · exact resource_process_ok conv resource resource2 h2 u hr2

/-- A successful `QualifiedDate.process` strictly resolved all nested
URIs. -/
theorem qual_date_ok (conv : Converter) (q : QualifiedDate)
    (y : ProcessedQualifiedDate) (h : QualifiedDate.process conv q = .ok y) :
    ∀ u ∈ QualifiedDate.resolvedURIs q, ∃ ref, conv.parse_uri u = .ok ref := by
  match q with
  | .mk start_date end_date source rank date place =>
    simp only [QualifiedDate.process] at h
    cases h1 : _process_jskos_set conv source with
    | error e1 => rw [h1] at h; simp only [error_bind] at h; exact Except.noConfusion h
    | ok source2 =>
      rw [h1] at h; simp only [ok_bind] at h
      cases h2 : _process_jskos_set conv place with
      | error e1 => rw [h2] at h; simp only [error_bind] at h; exact Except.noConfusion h
      | ok place2 =>
        intro u hu
        simp only [QualifiedDate.resolvedURIs] at hu
        rcases List.mem_append.mp hu with hs2 | hp2
        · exact jskos_set_opt_ok conv source source2 h1 u hs2
        · exact jskos_set_opt_ok conv place place2 h2 u hp2

/-- A successful `QualifiedLiteral.process` strictly resolved all nested
URIs. -/
theorem qual_lit_ok (conv : Converter) (q : QualifiedLiteral)
    (y : ProcessedQualifiedLiteral) (h : QualifiedLiteral.process conv q = .ok y) :
    ∀ u ∈ QualifiedLiteral.resolvedURIs q, ∃ ref, conv.parse_uri u = .ok ref := by
  match q with
  | .mk start_date end_date source rank literal uri type =>
    simp only [QualifiedLiteral.process] at h
    cases h1 : _process_jskos_set conv source with
    | error e1 => rw [h1] at h; simp only [error_bind] at h; exact Except.noConfusion h
    | ok source2 =>
      rw [h1] at h; simp only [ok_bind] at h
      cases h2 : _parse_optional_url conv uri with
      | error e1 => rw [h2] at h; simp only [error_bind] at h; exact Except.noConfusion h
      | ok reference =>
        rw [h2] at h; simp only [ok_bind] at h
        cases h3 : _parse_optional_urls conv type with
        | error e1 => rw [h3] at h; simp only [error_bind] at h; exact Except.noConfusion h
        | ok type2 =>
          intro u hu
          simp only [QualifiedLiteral.resolvedURIs] at hu
          rcases List.mem_append.mp hu with hu2 | htype
          rcases List.mem_append.mp hu2 with hs2 | huri
          · exact jskos_set_opt_ok conv source source2 h1 u hs2
          · exact _parse_optional_url_ok_mem conv uri reference h2 u huri
          · exact _parse_optional_urls_ok_mem conv type type2 h3 u htype

/-- A successful `_process_dict` over `qualifiedRelations` strictly
resolved every key and nested URI. -/
theorem rel_dict_ok (conv : Converter) (o : Option (List (URI × QualifiedRelation)))
    (out : Option (List (Reference × ProcessedQualifiedRelation)))
    (h : _process_dict_relations conv o = .ok out) :
    ∀ u ∈ relDictOptURIs o, ∃ ref, conv.parse_uri u = .ok ref := by
  match o with
  | none => intro u hu; cases hu
  | some l =>
    simp only [_process_dict_relations] at h
    cases hl : _process_rel_entries conv l with
    | error e1 => rw [hl] at h; simp only [map_error] at h; exact Except.noConfusion h
    | ok out2 =>
      simp only [relDictOptURIs]
      exact rel_entries_ok conv l out2 hl

/-- Successful `qualifiedRelations` entry processing strictly resolved
every key and nested URI. -/
theorem rel_entries_ok (conv : Converter) (l : List (URI × QualifiedRelation))
    (out : List (Reference × ProcessedQualifiedRelation))
    (h : _process_rel_entries conv l = .ok out) :
    ∀ u ∈ relEntriesURIs l, ∃ ref, conv.parse_uri u = .ok ref := by
  match l with
  | [] => intro u hu; cases hu
  | (k, v) :: rest =>
    simp only [_process_rel_entries] at h
    cases h1 : conv.parse_uri k with
    | error e1 => rw [h1] at h; simp only [error_bind] at h; exact Except.noConfusion h
    | ok rk =>
      rw [h1] at h; simp only [ok_bind] at h
      cases h2 : QualifiedRelation.process conv v with
      | error e1 => rw [h2] at h; simp only [error_bind] at h; exact Except.noConfusion h
      | ok pv =>
        rw [h2] at h; simp only [ok_bind] at h
        cases h3 : _process_rel_entries conv rest with
        | error e1 => rw [h3] at h; simp only [error_bind] at h; exact Except.noConfusion h
        | ok tail =>
          intro u hu
          simp only [relEntriesURIs] at hu
          rcases List.mem_cons.mp hu with hk | hu2
          · exact hk ▸ ⟨rk, h1⟩
          rcases List.mem_append.mp hu2 with hv2 | ht2
          · exact qual_rel_ok conv v pv h2 u hv2
          · exact rel_entries_ok conv rest tail h3 u ht2

/-- A successful `_process_dict` over `qualifiedDates` strictly resolved
every key and nested URI. -/
theorem date_dict_ok (conv : Converter) (o : Option (List (URI × QualifiedDate)))
    (out : Option (List (Reference × ProcessedQualifiedDate)))
    (h : _process_dict_dates conv o = .ok out) :
    ∀ u ∈ dateDictOptURIs o, ∃ ref, conv.parse_uri u = .ok ref := by
  match o with
  | none => intro u hu; cases hu
  | some l =>
    simp only [_process_dict_dates] at h
    cases hl : _process_date_entries conv l with
    | error e1 => rw [hl] at h; simp only [map_error] at h; exact Except.noConfusion h
    | ok out2 =>
      simp only [dateDictOptURIs]
      exact date_entries_ok conv l out2 hl

/-- Successful `qualifiedDates` entry processing strictly resolved every
key and nested URI. -/
theorem date_entries_ok (conv : Converter) (l : List (URI × QualifiedDate))
    (out : List (Reference × ProcessedQualifiedDate))
    (h : _process_date_entries conv l = .ok out) :
    ∀ u ∈ dateEntriesURIs l, ∃ ref, conv.parse_uri u = .ok ref := by
  match l with
  | [] => intro u hu; cases hu
  | (k, v) :: rest =>
    simp only [_process_date_entries] at h
    cases h1 : conv.parse_uri k with
    | error e1 => rw [h1] at h; simp only [error_bind] at h; exact Except.noConfusion h
    | ok rk =>
      rw [h1] at h; simp only [ok_bind] at h
      cases h2 : QualifiedDate.process conv v with
      | error e1 => rw [h2] at h; simp only [error_bind] at h; exact Except.noConfusion h
      | ok pv =>
        rw [h2] at h; simp only [ok_bind] at h
        cases h3 : _process_date_entries conv rest with
        | error e1 => rw [h3] at h; simp only [error_bind] at h; exact Except.noConfusion h
        | ok tail =>
          intro u hu
          simp only [dateEntriesURIs] at hu
          rcases List.mem_cons.mp hu with hk | hu2
          · exact hk ▸ ⟨rk, h1⟩
          rcases List.mem_append.mp hu2 with hv2 | ht2
          · exact qual_date_ok conv v pv h2 u hv2
          · exact date_entries_ok conv rest tail h3 u ht2

/-- A successful `_process_dict` over `qualifiedLiterals` strictly
resolved every key and nested URI. -/
theorem lit_dict_ok (conv : Converter) (o : Option (List (URI × QualifiedLiteral)))
    (out : Option (List (Reference × ProcessedQualifiedLiteral)))
    (h : _process_dict_literals conv o = .ok out) :
    ∀ u ∈ litDictOptURIs o, ∃ ref, conv.parse_uri u = .ok ref := by
  match o with
  | none => intro u hu; cases hu
  | some l =>
    simp only [_process_dict_literals] at h
    cases hl : _process_lit_entries conv l with
    | error e1 => rw [hl] at h; simp only [map_error] at h; exact Except.noConfusion h
    | ok out2 =>
      simp only [litDictOptURIs]
      exact lit_entries_ok conv l out2 hl

/-- Successful `qualifiedLiterals` entry processing strictly resolved
every key and nested URI. -/
theorem lit_entries_ok (conv : Converter) (l : List (URI × QualifiedLiteral))
    (out : List (Reference × ProcessedQualifiedLiteral))
    (h : _process_lit_entries conv l = .ok out) :
    ∀ u ∈ litEntriesURIs l, ∃ ref, conv.parse_uri u = .ok ref := by
  match l with
  | [] => intro u hu; cases hu
  | (k, v) :: rest =>
    simp only [_process_lit_entries] at h
    cases h1 : conv.parse_uri k with
    | error e1 => rw [h1] at h; simp only [error_bind] at h; exact Except.noConfusion h
    | ok rk =>
      rw [h1] at h; simp only [ok_bind] at h
      cases h2 : QualifiedLiteral.process conv v with
      | error e1 => rw [h2] at h; simp only [error_bind] at h; exact Except.noConfusion h
      | ok pv =>
        rw [h2] at h; simp only [ok_bind] at h
        cases h3 : _process_lit_entries conv rest with
        | error e1 => rw [h3] at h; simp only [error_bind] at h; exact Except.noConfusion h
        | ok tail =>
          intro u hu
          simp only [litEntriesURIs] at hu
          rcases List.mem_cons.mp hu with hk | hu2
          · exact hk ▸ ⟨rk, h1⟩
          rcases List.mem_append.mp hu2 with hv2 | ht2
          · exact qual_lit_ok conv v pv h2 u hv2
          · exact lit_entries_ok conv rest tail h3 u ht2

end


/-- C1: the claim's premise holds — the concept's `uri` compacts under the
bound prefix table to `Reference(prefix="wikidata", identifier="Q406")`
and expanding that reference reproduces the original URI exactly — but
`Concept.process` returns a processed concept whose `reference` field is
`None`, not the compacted reference: the item-mixin fields are never
filled in (`# TODO fill in item mixin`, api.py line 482).  This
contradicts the claim, the spec's end-to-end example, and the repository's
own test `test_18`, which asserts
`Reference(prefix="wikidata", identifier="Q406") ==
processed_concept.reference`. -/
theorem c1_concept_process_drops_reference :
    Converter.parse_uri wikidataConverter "http://www.wikidata.org/entity/Q406" =
        .ok ⟨"wikidata", "Q406"⟩ ∧
    Converter.expand wikidataConverter ⟨"wikidata", "Q406"⟩ =
        some "http://www.wikidata.org/entity/Q406" ∧
    Concept.process wikidataConverter conceptQ406 =
        .ok (.mk ProcessedItem.defaults none none none none none none none none) ∧
    ProcessedConcept.reference
        (.mk ProcessedItem.defaults none none none none none none none none) =
      none :=
  ⟨rfl, rfl, rfl, rfl⟩

/-- C2 counterexample: the claim as stated quantifies over URIs *anywhere*
in the tree, but the `@context` field is passed through unresolved: a
`Resource` whose `@context` is `"http://unregistered.example/x"` — a URI
failing strict resolution — still processes successfully. -/
theorem c2_counterexample_context_not_resolved :
    Converter.parse_uri wikidataConverter "http://unregistered.example/x" =
        .error (.unresolvedURI "http://unregistered.example/x") ∧
    Resource.process wikidataConverter resourceBadContext =
      .ok (.mk (some (.one "http://unregistered.example/x")) none none none none
        none none none none none none none none none none none none) :=
  ⟨rfl, rfl⟩

/-- C2 (amended): for every well-formed raw `Resource` containing,
anywhere in its tree *in a position that processing strictly resolves*
(`uri`, `identifier` elements, annotation `id`s and bare-URI targets,
qualified-dictionary keys, qualified-literal `uri` and `type`,
recursively), a URI that fails strict resolution, `process` fails with
`UnresolvedURIError`; since failure is an `Except.error`, no processed
entity and no partially-resolved tree is returned, and the raw input is
untouched. -/
theorem c2_amended_strict_failure_aborts (conv : Converter) (r : Resource)
    (u : String) (hwf : Resource.wellFormed r = true)
    (hmem : u ∈ Resource.resolvedURIs r)
    (hfail : ∃ e, conv.parse_uri u = .error e) :
    ∃ u2, Resource.process conv r = .error (.unresolvedURI u2) := by
  obtain ⟨e, he⟩ := hfail
  cases hp : Resource.process conv r with
  | ok y =>
    obtain ⟨ref, href⟩ := resource_process_ok conv r y hp u hmem
    rw [href] at he
    exact Except.noConfusion he
  | error e2 =>
    obtain ⟨u2, hu2⟩ := resource_process_err conv r e2 hwf hp
    exact ⟨u2, by rw [hu2]⟩

/-- C2 witness: the amended theorem applied to a resource whose `uri` is
the claim's unregistered URI. -/
theorem c2_amended_witness :
    Resource.wellFormed resourceBadURI = true ∧
    "http://unregistered.example/x" ∈ Resource.resolvedURIs resourceBadURI ∧
    ∃ u2, Resource.process wikidataConverter resourceBadURI =
      .error (.unresolvedURI u2) :=
  ⟨rfl, by decide,
    c2_amended_strict_failure_aborts wikidataConverter resourceBadURI
      "http://unregistered.example/x" rfl (by decide)
      ⟨.unresolvedURI "http://unregistered.example/x", rfl⟩⟩

/-- C3: element-wise null preservation is implemented in
`_process_jskos_set`, and for the `Resource`-level JSKOS sets the spec's
example does process to `[null, Processed(...), null]` (second conjunct).
But `Concept.process` routes `narrower`/`broader`/`related` — declared
`JSKOSSet`s — through `process_many`, which calls `.process` on every
element, so the very same example input on a concept's `narrower` fails
the call instead of passing nulls through; the declared output type
`list[ProcessedConcept]` could not hold the nulls either. -/
theorem c3_narrower_null_fails :
    Converter.parse_uri aConverter "http://a/b" = .ok ⟨"a", "b"⟩ ∧
    _process_jskos_set aConverter (some [none, some resourceAB, none]) =
      .ok (some [none,
        some (.mk none (some ⟨"a", "b"⟩) none none none none none none none none
          none none none none none none none),
        none]) ∧
    Concept.process aConverter conceptNullNarrower = .error .attributeError :=
  ⟨rfl, rfl, rfl⟩

/-- C4: on the single-valued dictionaries the model declares,
`_process_dict` does resolve the key
`"http://www.w3.org/2008/05/skos-xl#prefLabel"` to
`Reference(prefix="skosxl", identifier="prefLabel")` and processes the
value.  The claim's value *lists* cannot exist: the source declares
`qualified_literals: dict[AnyUrl, QualifiedLiteral]`, one literal per key,
so the repository's own test input (`test_18`, lists of qualified literals
per key, as in the JSKOS vocabulary) is rejected at validation and there
is no list whose length and order could be preserved. -/
theorem c4_dict_key_resolution_single_value :
    _process_dict_literals skosxlConverter
        (some [("http://www.w3.org/2008/05/skos-xl#prefLabel",
          qualifiedLiteralIstanbul)]) =
      .ok (some [(⟨"skosxl", "prefLabel"⟩,
        .mk none none none (some .preferred) ⟨"İstanbul", some "tr"⟩ none none)]) :=
  rfl

/-- C5: `Annotation.process` dispatches on the shape of `target`: an
entity target is recursively processed (a `Resource` to a processed
resource, a nested annotation to a processed annotation), a bare URI
becomes a plain compact reference, and a raw value matching none of the
three declared variants fails the call with the type-mismatch error
(`raise TypeError`). -/
theorem c5_annotation_target_dispatch :
    (∀ (conv : Converter) (context type id : String) (t : AnnotationTarget),
      Annotation.process conv (.mk context type id t) = do
        let target2 ← processAnnTarget conv t
        let reference ← conv.parse_uri id
        pure (.mk context type reference target2)) ∧
    (∀ (conv : Converter) (u : URI),
      processAnnTarget conv (.url u) = (conv.parse_uri u).map .ref) ∧
    (∀ (conv : Converter) (r : Resource),
      processAnnTarget conv (.res r) = (Resource.process conv r).map .res) ∧
    (∀ (conv : Converter) (a : Annotation),
      processAnnTarget conv (.ann a) = ( Annotation.process conv a).map .ann) ∧
    (∀ conv : Converter, processAnnTarget conv .invalid = .error .typeMismatch) :=
  ⟨fun _ _ _ _ _ => rfl, fun _ _ => rfl, fun _ _ => rfl, fun _ _ => rfl,
    fun _ => rfl⟩

/-- C6: when two distinct raw keys compact to the same reference, each of
the three URI-keyed dictionaries processes to a single entry for that
reference holding the processed value of the later raw key — the dict
comprehension's last write wins. -/
theorem c6_dict_last_write_wins (conv : Converter) (k1 k2 : URI) (r : Reference)
    (_hne : k1 ≠ k2) (h1 : conv.parse_uri k1 = .ok r)
    (h2 : conv.parse_uri k2 = .ok r) :
    (∀ (v1 v2 : QualifiedRelation) (p1 p2 : ProcessedQualifiedRelation),
      QualifiedRelation.process conv v1 = .ok p1 →
      QualifiedRelation.process conv v2 = .ok p2 →
      _process_dict_relations conv (some [(k1, v1), (k2, v2)]) =
        .ok (some [(r, p2)])) ∧
    (∀ (v1 v2 : QualifiedDate) (p1 p2 : ProcessedQualifiedDate),
      QualifiedDate.process conv v1 = .ok p1 →
      QualifiedDate.process conv v2 = .ok p2 →
      _process_dict_dates conv (some [(k1, v1), (k2, v2)]) =
        .ok (some [(r, p2)])) ∧
    (∀ (v1 v2 : QualifiedLiteral) (p1 p2 : ProcessedQualifiedLiteral),
      QualifiedLiteral.process conv v1 = .ok p1 →
      QualifiedLiteral.process conv v2 = .ok p2 →
      _process_dict_literals conv (some [(k1, v1), (k2, v2)]) =
        .ok (some [(r, p2)])) := by
  refine ⟨?_, ?_, ?_⟩
  · intro v1 v2 p1 p2 hv1 hv2
    simp [_process_dict_relations, _process_rel_entries, h1, h2, hv1, hv2,
      dictCollapse, dictInsert]
  · intro v1 v2 p1 p2 hv1 hv2
    simp [_process_dict_dates, _process_date_entries, h1, h2, hv1, hv2,
      dictCollapse, dictInsert]
  · intro v1 v2 p1 p2 hv1 hv2
    simp [_process_dict_literals, _process_lit_entries, h1, h2, hv1, hv2,
      dictCollapse, dictInsert]

/-- C6 witness: under a table registering two namespace roots for the
prefix `p`, the distinct keys `http://x/q` and `http://y/q` both compact
to `p:q`, and the processed dictionary holds a single entry whose value
comes from the later key. -/
theorem c6_witness :
    _process_dict_relations synonymConverter
        (some [("http://x/q", qualifiedRelationA),
          ("http://y/q", qualifiedRelationB)]) =
      .ok (some [(⟨"p", "q"⟩,
        .mk (some "1930") none none none ProcessedResource.defaults)]) :=
  (c6_dict_last_write_wins synonymConverter "http://x/q" "http://y/q" ⟨"p", "q"⟩
    (by decide) rfl rfl).1 qualifiedRelationA qualifiedRelationB
    (.mk none none none none ProcessedResource.defaults)
    (.mk (some "1930") none none none ProcessedResource.defaults) rfl rfl

/-- C7 counterexample: `rank` is an enum field present on the raw item
(`rank = preferred`), but `Item.process` never passes it on (api.py line
324 comments it out), so the processed item's `rank` is `None`, not the
raw value — the claim's "appears in the processed entity structurally
unchanged" fails. -/
theorem c7_counterexample_rank_dropped :
    Item.process wikidataConverter itemWithRank = .ok ProcessedItem.defaults ∧
    ProcessedResource.rank ProcessedItem.defaults.base = none :=
  ⟨rfl, rfl⟩

/-- C7 (amended): the pass-through fields that *are* carried move
structurally unchanged and unvalidated: `Item.process` carries the six
label maps (`prefLabel`, `altLabel`, `hiddenLabel`, `scopeNote`,
`definition`, `example`), `Resource.process` carries `rank`,
`Mapping.process` carries `mapping_relevance`, and `KOS.process` carries
`title` and `description`.  The other fields the claim lists are dropped:
`Item.process` omits `historyNote`/`editorialNote`/`changeNote`/`note` and
`rank`, `Concept.process` and `Mapping.process` omit every label, and
`frequency` sits on `Occurrence`, which has no `process` method at all. -/
theorem c7_amended_passthrough :
    (∀ (conv : Converter) (res : ResourceFields) (item : ItemFields)
        (rb bo tool issue it gl vo : Option (List Item)) (p : ProcessedItem),
      Item.process conv (.mk res item rb bo tool issue it gl vo) = .ok p →
      p.preferred_label = item.preferred_label ∧
      p.alternative_label = item.alternative_label ∧
      p.hidden_label = item.hidden_label ∧
      p.scope_note = item.scope_note ∧
      p.definition = item.definition ∧
      p.example_ = item.example_) ∧
    (∀ (conv : Converter) (r : Resource) (y : ProcessedResource),
      Resource.process conv r = .ok y →
      ProcessedResource.rank y = Resource.rank r) ∧
    (∀ (conv : Converter) (m : Mapping) (y : ProcessedMapping),
      Mapping.process conv m = .ok y →
      ProcessedMapping.mapping_relevance y = Mapping.mapping_relevance m) ∧
    (∀ (conv : Converter) (k : KOS) (y : ProcessedKOS),
      KOS.process conv k = .ok y → y.title = k.title ∧
        y.description = k.description) := by
  refine ⟨?_, ?_, ?_, ?_⟩
  · intro conv res item rb bo tool issue it gl vo p h
    simp only [Item.process] at h
    cases h1 : _parse_optional_url conv res.uri with
    | error e1 => rw [h1] at h; simp only [error_bind] at h; exact Except.noConfusion h
    | ok reference =>
      rw [h1] at h; simp only [ok_bind] at h
      cases h2 : _parse_optional_urls conv res.identifier with
      | error e1 => rw [h2] at h; simp only [error_bind] at h; exact Except.noConfusion h
      | ok identifier2 =>
        rw [h2] at h; simp only [ok_bind, pure_eq_ok, Except.ok.injEq] at h
        subst h
        exact ⟨rfl, rfl, rfl, rfl, rfl, rfl⟩
  · intro conv r y h
    obtain ⟨context, uri, identifier, type, created, issued, modified, creator,
      contributor, source, publisher, part_of, annotations, qualified_relations,
      qualified_dates, qualified_literals, rank⟩ := r
    simp only [Resource.process] at h
    cases h1 : _parse_optional_url conv uri with
    | error e1 => rw [h1] at h; simp only [error_bind] at h; exact Except.noConfusion h
    | ok reference =>
    rw [h1] at h; simp only [ok_bind] at h
    cases h2 : _parse_optional_urls conv identifier with
    | error e1 => rw [h2] at h; simp only [error_bind] at h; exact Except.noConfusion h
    | ok identifier2 =>
    rw [h2] at h; simp only [ok_bind] at h
    cases h3 : _process_jskos_set conv creator with
    | error e1 => rw [h3] at h; simp only [error_bind] at h; exact Except.noConfusion h
    | ok creator2 =>
    rw [h3] at h; simp only [ok_bind] at h
    cases h4 : _process_jskos_set conv contributor with
    | error e1 => rw [h4] at h; simp only [error_bind] at h; exact Except.noConfusion h
    | ok contributor2 =>
    rw [h4] at h; simp only [ok_bind] at h
    cases h5 : _process_jskos_set conv source with
    | error e1 => rw [h5] at h; simp only [error_bind] at h; exact Except.noConfusion h
    | ok source2 =>
    rw [h5] at h; simp only [ok_bind] at h
    cases h6 : _process_jskos_set conv publisher with
    | error e1 => rw [h6] at h; simp only [error_bind] at h; exact Except.noConfusion h
    | ok publisher2 =>
    rw [h6] at h; simp only [ok_bind] at h
    cases h7 : _process_jskos_set conv part_of with
    | error e1 => rw [h7] at h; simp only [error_bind] at h; exact Except.noConfusion h
    | ok part_of2 =>
    rw [h7] at h; simp only [ok_bind] at h
    cases h8 : process_many_ann conv annotations with
    | error e1 => rw [h8] at h; simp only [error_bind] at h; exact Except.noConfusion h
    | ok annotations2 =>
    rw [h8] at h; simp only [ok_bind] at h
    cases h9 : _process_dict_relations conv qualified_relations with
    | error e1 => rw [h9] at h; simp only [error_bind] at h; exact Except.noConfusion h
    | ok qualified_relations2 =>
    rw [h9] at h; simp only [ok_bind] at h
    cases h10 : _process_dict_dates conv qualified_dates with
    | error e1 => rw [h10] at h; simp only [error_bind] at h; exact Except.noConfusion h
    | ok qualified_dates2 =>
    rw [h10] at h; simp only [ok_bind] at h
    cases h11 : _process_dict_literals conv qualified_literals with
    | error e1 => rw [h11] at h; simp only [error_bind] at h; exact Except.noConfusion h
    | ok qualified_literals2 =>
    rw [h11] at h; simp only [ok_bind, pure_eq_ok, Except.ok.injEq] at h
    subst h
    rfl
  · intro conv m y h
    obtain ⟨res, item, rb, bo, tool, issue, it, gl, vo, subject_bundle,
      object_bundle, from_scheme, to_scheme, mapping_relevance, justification⟩ := m
    simp only [Mapping.process] at h
    cases h1 : ConceptBundle.process conv subject_bundle with
    | error e1 => rw [h1] at h; simp only [error_bind] at h; exact Except.noConfusion h
    | ok from_bundle =>
    rw [h1] at h; simp only [ok_bind] at h
    cases h2 : ConceptBundle.process conv object_bundle with
    | error e1 => rw [h2] at h; simp only [error_bind] at h; exact Except.noConfusion h
    | ok to_bundle =>
    rw [h2] at h; simp only [ok_bind] at h
    cases h3 : process_opt_scheme conv from_scheme with
    | error e1 => rw [h3] at h; simp only [error_bind] at h; exact Except.noConfusion h
    | ok from_scheme2 =>
    rw [h3] at h; simp only [ok_bind] at h
    cases h4 : process_opt_scheme conv to_scheme with
    | error e1 => rw [h4] at h; simp only [error_bind] at h; exact Except.noConfusion h
    | ok to_scheme2 =>
    rw [h4] at h; simp only [ok_bind] at h
    cases h5 : _parse_optional_url conv justification with
    | error e1 => rw [h5] at h; simp only [error_bind] at h; exact Except.noConfusion h
    | ok justification2 =>
    rw [h5] at h; simp only [ok_bind, pure_eq_ok, Except.ok.injEq] at h
    subst h
    rfl
  · intro conv k y h
    simp only [KOS.process] at h
    cases h1 : process_many_concepts conv k.has_top_concept with
    | error e1 => rw [h1] at h; simp only [error_bind] at h; exact Except.noConfusion h
    | ok cs =>
      rw [h1] at h; simp only [ok_bind] at h
      match cs with
      | some l =>
        simp only [pure_eq_ok, Except.ok.injEq] at h
        subst h
        exact ⟨rfl, rfl⟩
      | none => exact Except.noConfusion h

/-- C7 witness: the amended theorem applied to an item carrying only a
German preferred label. -/
theorem c7_amended_witness :
    Item.process wikidataConverter
        (.mk ResourceFields.empty itemFieldsPref none none none none none none
          none) =
      .ok ⟨ProcessedResource.defaults,
        some [("de", "Mittelalterliche Philosophie")], none, none, none, none,
        none⟩ ∧
    (⟨ProcessedResource.defaults, some [("de", "Mittelalterliche Philosophie")],
        none, none, none, none, none⟩ : ProcessedItem).preferred_label =
      ItemFields.preferred_label itemFieldsPref :=
  ⟨rfl,
    (c7_amended_passthrough.1 wikidataConverter ResourceFields.empty itemFieldsPref
      none none none none none none none
      ⟨ProcessedResource.defaults, some [("de", "Mittelalterliche Philosophie")],
        none, none, none, none, none⟩ rfl).1⟩

/-- C8 counterexample: an occurrence's `database` is never recursed into.
The database item's `uri` fails strict resolution, so recursing into it
would abort the call; instead `Concept.process` drops `occurrences`
entirely (`Occurrence` has no `process` method and `ProcessedConcept` has
no occurrence field) and the call succeeds with no trace of the
database. -/
theorem c8_counterexample_database_ignored :
    Converter.parse_uri wikidataConverter "http://unregistered.example/x" =
        .error (.unresolvedURI "http://unregistered.example/x") ∧
    Concept.process wikidataConverter
        (Concept.setOccurrences (some [occurrenceWithDatabase]) Concept.empty) =
      .ok (.mk ProcessedItem.defaults none none none none none none none none) :=
  ⟨rfl, rfl⟩

/-- C8 (amended): a qualified relation's required `resource` is always
recursively processed, and the processed relation holds exactly its
processed resource; an `Occurrence`'s `database` is never processed —
`Occurrence` has no `process` method and `Concept.process` is insensitive
to the `occurrences` field. -/
theorem c8_amended_nested_entities :
    (∀ (conv : Converter) (q : QualifiedRelation) (p : ProcessedQualifiedRelation),
      QualifiedRelation.process conv q = .ok p →
      Resource.process conv (QualifiedRelation.resource q) =
        .ok (ProcessedQualifiedRelation.resource p)) ∧
    (∀ (conv : Converter) (c : Concept) (occs : Option (List Occurrence)),
      Concept.process conv (Concept.setOccurrences occs c) =
        Concept.process conv c) := by
  constructor
  · intro conv q p h
    obtain ⟨start_date, end_date, source, rank, resource⟩ := q
    simp only [QualifiedRelation.process] at h
    cases h1 : _process_jskos_set conv source with
    | error e1 => rw [h1] at h; simp only [error_bind] at h; exact Except.noConfusion h
    | ok source2 =>
      rw [h1] at h; simp only [ok_bind] at h
      cases h2 : Resource.process conv resource with
      | error e1 => rw [h2] at h; simp only [error_bind] at h; exact Except.noConfusion h
      | ok resource2 =>
        rw [h2] at h; simp only [ok_bind, pure_eq_ok, Except.ok.injEq] at h
        subst h
        exact h2
  · intro conv c occs
    obtain ⟨res, item, rb, bo, tool, issue, it, gl, vo, ms, ml, mc, narrower,
      broader, related, previous, next, ancestors, in_scheme, top_concept_of,
      mappings, occurrences, deprecated⟩ := c
    rfl

/-- C8 witness: the amended theorem applied to a qualified relation whose
resource is the empty resource. -/
theorem c8_amended_witness :
    Resource.process wikidataConverter Resource.empty =
      .ok ProcessedResource.defaults :=
  c8_amended_nested_entities.1 wikidataConverter qualifiedRelationA
    (.mk none none none none ProcessedResource.defaults) rfl

/-- A string with `https` as a prefix also has `http` as a prefix. -/
theorem https_prefix_imp_http (s : String)
    (h : strIsPrefixOf "https" s = true) : strIsPrefixOf "http" s = true := by
  simp only [strIsPrefixOf, List.isPrefixOf_iff_prefix] at h ⊢
  exact List.IsPrefix.trans (by decide) h

/-- C9: `read` attempts an HTTP GET for every string argument starting
with `"http"` — including non-URLs such as the local filename
`"httpfoo.json"` — and only arguments not starting with `"http"` (which
subsumes `"https"`) or given as `Path` values are opened as local
files. -/
theorem c9_read_http_dispatch :
    (∀ s : String, strIsPrefixOf "http" s = true →
      read_dispatch (.str s) = .httpGet s) ∧
    read_dispatch (.str "httpfoo.json") = .httpGet "httpfoo.json" ∧
    (∀ s : String, strIsPrefixOf "http" s = false →
      read_dispatch (.str s) = .openFile s) ∧
    (∀ p : String, read_dispatch (.path p) = .openFile p) := by
  refine ⟨?_, by rfl, ?_, fun p => rfl⟩
  · intro s h
    simp [read_dispatch, _PROTOCOLS, h]
  · intro s h
    have h2 : strIsPrefixOf "https" s = false := by
      cases hh : strIsPrefixOf "https" s with
      | false => rfl
      | true => rw [https_prefix_imp_http s hh] at h; exact Bool.noConfusion h
    simp [read_dispatch, _PROTOCOLS, h, h2]

/-- C9 witness: the dispatch theorem applied to an `http`-prefixed string
and to a string without the prefix. -/
theorem c9_witness :
    read_dispatch (.str "httpfoo.json") = .httpGet "httpfoo.json" ∧
    read_dispatch (.str "local/file.json") = .openFile "local/file.json" :=
  ⟨c9_read_http_dispatch.1 "httpfoo.json" (by decide),
    c9_read_http_dispatch.2.2.1 "local/file.json" (by decide)⟩

/-- C10 counterexample: a `KOS` with `has_top_concept` absent does not
process to a `ProcessedKOS` with an empty `concepts` list — `process_many`
turns the absence into `None`, and the required `concepts` list field
rejects `None`, so the call fails. -/
theorem c10_counterexample_absent_top_concepts :
    KOS.process wikidataConverter kosNoTop = .error .validationError :=
  rfl

/-- C10 (amended): for a `KOS` without top concepts, `KOS.process` fails
with a validation error instead of producing `concepts = []`; when
`has_top_concept` is present, `id`, `type`, `title` and `description` are
carried over unchanged and `concepts` is the element-wise processed
list. -/
theorem c10_amended_kos_process :
    (∀ (conv : Converter) (id type : String) (title description : LanguageMap),
      KOS.process conv ⟨id, type, title, description, none⟩ =
        .error .validationError) ∧
    (∀ (conv : Converter) (id type : String) (title description : LanguageMap)
        (l : List Concept) (out : List ProcessedConcept),
      process_concept_list conv l = .ok out →
      KOS.process conv ⟨id, type, title, description, some l⟩ =
        .ok ⟨id, type, title, description, out⟩) := by
  constructor
  · intro conv id type title description
    rfl
  · intro conv id type title description l out h
    simp [KOS.process, process_many_concepts, h]

/-- C10 witness: the amended theorem applied to a KOS with one empty top
concept. -/
theorem c10_amended_witness :
    KOS.process wikidataConverter
        ⟨"https://example.org/kos", "skos:ConceptScheme", [("en", "T")],
          [("en", "D")], some [Concept.empty]⟩ =
      .ok ⟨"https://example.org/kos", "skos:ConceptScheme", [("en", "T")],
        [("en", "D")],
        [.mk ProcessedItem.defaults none none none none none none none none]⟩ :=
  c10_amended_kos_process.2 wikidataConverter "https://example.org/kos"
    "skos:ConceptScheme" [("en", "T")] [("en", "D")] [Concept.empty]
    [.mk ProcessedItem.defaults none none none none none none none none] rfl

end Jskos
